import Mathlib

/-!
Verification of the `ragclient` Go SDK (autocoder-rag-sdk-go).

This file shallowly embeds the SDK's data model and the pure logic of its
operations, translated from the Go sources (`types.go` and the main client
file), and proves the specification claims about them.

Modelling conventions:
* Go `map[string]interface{}` JSON payloads are modelled by the inductive
  `Ragclient.Json` with object fields as association lists with Go-map
  semantics (unique keys up to the parser's last-write-wins normalisation;
  lookup is first match).
* JSON numbers are restricted to integers (`Int`); the protocol's numeric
  fields (token counts, file/character totals) are integral.  Go decodes
  JSON numbers as `float64` and casts to `int`; that cast is the identity
  on the integral numbers modelled here.
* Go `int` is modelled as `Int`: no claim in scope distinguishes wrapped
  64-bit arithmetic from unbounded integers.
* The operating-system surface (filesystem, process spawning, channels,
  wall-clock time) is made explicit: directory existence is a predicate
  argument, a subprocess run is an `ExecOutcome` value, the channel
  interleaving consumed by the message collector is a list of `CEvent`s,
  and `time.Now()` timestamps are the `none` case of an `Option`.
-/

namespace Ragclient

/-! ## JSON values (shallow model of Go's `encoding/json` data) -/

/-- A JSON value as produced by Go's `json.Unmarshal` into
`map[string]interface{}` / `[]interface{}` / `string` / `float64` / `bool` /
`nil`.  Numbers are restricted to integers (see the module comment);
objects are association lists. -/
inductive Json where
  | null : Json
  | bool (b : Bool) : Json
  | num (n : Int) : Json
  | str (s : String) : Json
  | arr (xs : List Json) : Json
  | obj (fields : List (String × Json)) : Json

/-- Go map read `m[k]`: first matching key (object lists carry at most one
binding per key, the parser normalises duplicates). -/
def lookupJ (fields : List (String × Json)) (k : String) : Option Json :=
  (fields.find? (fun p => p.1 = k)).map (fun p => p.2)

/-! ## `types.go`: Message and its accessors -/

/-- `TokenInfo` (types.go): token counts carried by a `tokens` payload. -/
structure TokenInfo where
  input : Int
  generated : Int

/-- `Message` (types.go): a protocol message.  `timestamp` is `some s` when
the line carried a `timestamp` string that `time.Parse(RFC3339)` accepts,
and `none` for the `time.Now()` fallback (wall-clock values are opaque in
the model; no claim depends on them). -/
structure Message where
  eventType : String
  timestamp : Option String
  data : List (String × Json)
  rawJSON : String

def MessageTypeStart : String := "start"
def MessageTypeStage : String := "stage"
def MessageTypeContent : String := "content"
def MessageTypeContexts : String := "contexts"
def MessageTypeEnd : String := "end"

def Message.IsContent (m : Message) : Bool := m.eventType = MessageTypeContent

def Message.IsContexts (m : Message) : Bool := m.eventType = MessageTypeContexts

def Message.IsEnd (m : Message) : Bool := m.eventType = MessageTypeEnd

/-- `Message.GetContent` (types.go): `data["content"]` when it is a string,
otherwise the zero value `""`. -/
def Message.GetContent (m : Message) : String :=
  match lookupJ m.data "content" with
  | some (.str s) => s
  | _ => ""

/-- Element conversion inside `GetContexts`: a non-string element leaves the
zero value `""` in the result slice. -/
def strOrEmpty : Json → String
  | .str s => s
  | _ => ""

/-- `Message.GetContexts` (types.go): the `contexts` array mapped through
`strOrEmpty`, or `none` (Go `nil`) when `data["contexts"]` is not an array. -/
def Message.GetContexts (m : Message) : Option (List String) :=
  match lookupJ m.data "contexts" with
  | some (.arr xs) => some (xs.map strOrEmpty)
  | _ => none

/-- Numeric field read in `GetTokens`: a failed type assertion yields the
zero value `0`. -/
def numOrZero : Option Json → Int
  | some (.num n) => n
  | _ => 0

/-- `Message.GetTokens` (types.go): `some` when `data["tokens"]` is an
object, reading `input` and `generated` with zero-value fallback. -/
def Message.GetTokens (m : Message) : Option TokenInfo :=
  match lookupJ m.data "tokens" with
  | some (.obj t) => some ⟨numOrZero (lookupJ t "input"), numOrZero (lookupJ t "generated")⟩
  | _ => none

/-- `Message.GetMetadata` (types.go): the `metadata` object, or `none`
(Go `nil`) when absent or not an object. -/
def Message.GetMetadata (m : Message) : Option (List (String × Json)) :=
  match lookupJ m.data "metadata" with
  | some (.obj o) => some o
  | _ => none

/-! ## Error kinds (types.go) -/

/-- The three SDK error kinds: `ValidationError`, `ExecutionError`
(message + exit code) and `RAGError`. -/
inductive SDKError where
  | validation (msg : String)
  | execution (msg : String) (exitCode : Int)
  | rag (msg : String)

/-- `Error()` accessor: every kind returns its message. -/
def SDKError.errMsg : SDKError → String
  | .validation m => m
  | .execution m _ => m
  | .rag m => m

def SDKError.isValidation : SDKError → Bool
  | .validation _ => true
  | _ => false

def SDKError.isExecution : SDKError → Bool
  | .execution _ _ => true
  | _ => false

def SDKError.isRag : SDKError → Bool
  | .rag _ => true
  | _ => false

/-- `RAGResponse` (types.go). -/
structure RAGResponse where
  success : Bool
  answer : String
  contexts : List String
  error : String

/-! ## `QueryCollectMessages` aggregation (client source) -/

/-- The collector's local accumulator variables. -/
structure CollectState where
  contentParts : List String
  contexts : List String
  metadata : Option (List (String × Json))
  tokensInput : Int
  tokensGenerated : Int

def initCollectState : CollectState := ⟨[], [], none, 0, 0⟩

/-- One iteration of the message branch of the `select` loop in
`QueryCollectMessages`, in the source's branch order: content, contexts,
end, then `GetTokens`. -/
def collectStep (st : CollectState) (m : Message) : CollectState :=
  if m.IsContent then
    { st with contentParts := st.contentParts ++ [m.GetContent] }
  else if m.IsContexts then
    { st with contexts := st.contexts ++ (m.GetContexts).getD [] }
  else if m.IsEnd then
    { st with metadata := m.GetMetadata }
  else
    match m.GetTokens with
    | some t => { st with tokensInput := st.tokensInput + t.input,
                          tokensGenerated := st.tokensGenerated + t.generated }
    | none => st

/-- Go map assignment `m[k] = v`: replace an existing binding, else add. -/
def mapSet (m : List (String × Json)) (k : String) (v : Json) : List (String × Json) :=
  if m.any (fun p => p.1 = k) then
    m.map (fun p => if p.1 = k then (k, v) else p)
  else m ++ [(k, v)]

/-- The local metadata map as it stands after the channel closes: the
collected `end` metadata (or a fresh map) with `"tokens"` set.  The Go
function computes this map and then drops it — `RAGResponse` has no
metadata field. -/
def finalMetadata (st : CollectState) : List (String × Json) :=
  mapSet (st.metadata.getD [])
    "tokens" (.obj [("input", .num st.tokensInput), ("generated", .num st.tokensGenerated)])

/-- The response built when the message channel closes without an error. -/
def finalResponse (st : CollectState) : RAGResponse :=
  { success := true
    answer := String.join st.contentParts
    contexts := st.contexts
    error := "" }

/-- One observable event of the collector's `select` loop: a message
delivered on the message channel, or a non-nil error delivered on the error
channel.  A list of events is one linearisation of the two channels; the
end of the list is the close of the message channel. -/
inductive CEvent where
  | msg (m : Message)
  | fail (e : SDKError)

/-- The `select` loop of `QueryCollectMessages`: messages are folded into
the state; the first delivered error returns immediately with an empty
failure response; channel close builds the success response. -/
def collectEvents : CollectState → List CEvent → CollectState × RAGResponse × Option SDKError
  | st, [] => (st, finalResponse st, none)
  | st, .msg m :: rest => collectEvents (collectStep st m) rest
  | st, .fail e :: _ =>
    (st, { success := false, answer := "", contexts := [], error := e.errMsg }, some e)

/-- `QueryCollectMessages`, as a function of the consumed channel events. -/
def queryCollectMessages (events : List CEvent) : RAGResponse × Option SDKError :=
  let r := collectEvents initCollectState events
  (r.2.1, r.2.2)

/-! ## Configuration and per-call options (types.go) -/

/-- `RAGConfig` (types.go), restricted to the fields the client's pure
logic reads.  Go `float64` tuning fields are modelled as `ℚ` (their only
use is decimal formatting into argument strings). -/
structure RAGConfig where
  docDir : String
  commandPath : String
  model : String
  modelFile : String
  timeout : Int
  ragContextWindowLimit : Int
  fullTextRatio : ℚ
  segmentRatio : ℚ
  ragDocFilterRelevance : ℚ
  agentic : Bool
  productMode : String
  enableHybridIndex : Bool
  disableAutoWindow : Bool
  disableSegmentReorder : Bool
  envs : List (String × String)
  windowsUtf8Env : Bool

/-- `NewRAGConfig` (types.go): the default configuration for a document
directory.  (`RayAddress` and the per-role model fields are not read by any
modelled operation and are omitted.) -/
def newRAGConfig (docDir : String) : RAGConfig :=
  { docDir := docDir
    commandPath := "auto-coder.rag"
    model := "v3_chat"
    modelFile := ""
    timeout := 300
    ragContextWindowLimit := 56000
    fullTextRatio := 7 / 10
    segmentRatio := 2 / 10
    ragDocFilterRelevance := 0
    agentic := false
    productMode := "lite"
    enableHybridIndex := false
    disableAutoWindow := false
    disableSegmentReorder := false
    envs := []
    windowsUtf8Env := false }

/-- `RAGQueryOptions` (types.go).  Go pointer/nil-able fields are
`Option`s; a `nil` `Envs` map is `none`. -/
structure RAGQueryOptions where
  outputFormat : String
  agentic : Option Bool
  productMode : String
  model : String
  modelFile : String
  timeout : Option Int
  envs : Option (List (String × String))

/-! ## `validateConfig` and client construction (client source) -/

structure RAGClient where
  config : RAGConfig

/-- `validateConfig` (client source): the directory-existence check
(`os.Stat` + `os.IsNotExist`, abstracted as the predicate `dirExists`)
and the product-mode check, in source order.  The function is pure: it
spawns no process. -/
def validateConfig (dirExists : String → Bool) (config : RAGConfig) : Option SDKError :=
  if ¬ dirExists config.docDir then
    some (.validation ("文档目录不存在: " ++ config.docDir))
  else if config.productMode ≠ "lite" ∧ config.productMode ≠ "pro" then
    some (.validation ("不支持的产品模式: " ++ config.productMode))
  else
    none

/-- `NewRAGClientWithConfig` (client source): validate, then wrap the
config; on a validation error no client value is produced (and, the
constructor containing no process invocation, no process is spawned). -/
def newRAGClientWithConfig (dirExists : String → Bool) (config : RAGConfig) :
    Except SDKError RAGClient :=
  match validateConfig dirExists config with
  | some e => .error e
  | none => .ok ⟨config⟩

/-! ## Numeric flag formatting (client source `buildCommand`) -/

/-- Go `int(x)` on a `float64`: truncation toward zero. -/
def ratTrunc (q : ℚ) : Int :=
  if 0 ≤ q then ⌊q⌋ else -⌊-q⌋

/-- Go `fmt.Sprintf("%.1f", x)`: one fractional digit.  The model rounds
half away from zero where Go rounds half to even; no claim in scope
depends on the tie-breaking of the rounding. -/
def fmtF1 (q : ℚ) : String :=
  let n : Int := if 0 ≤ q then ⌊q * 10 + 1/2⌋ else -⌊-q * 10 + 1/2⌋
  let a : Nat := n.natAbs
  (if n < 0 then "-" else "") ++ toString (a / 10) ++ "." ++ toString (a % 10)

/-! ## `buildCommand` (client source) -/

/-- Model resolution in `buildCommand`: per-call override when non-empty. -/
def resolveModel (c : RAGConfig) (options : RAGQueryOptions) : String :=
  if options.model ≠ "" then options.model else c.model

/-- Model-file resolution in `buildCommand`: per-call override when
non-empty. -/
def resolveModelFile (c : RAGConfig) (options : RAGQueryOptions) : String :=
  if options.modelFile ≠ "" then options.modelFile else c.modelFile

/-- Output-format resolution in `buildCommand`: empty means `"text"`. -/
def resolveOutputFormat (options : RAGQueryOptions) : String :=
  if options.outputFormat = "" then "text" else options.outputFormat

/-- Agentic-flag resolution in `buildCommand`: per-call pointer wins. -/
def resolveAgentic (c : RAGConfig) (options : RAGQueryOptions) : Bool :=
  match options.agentic with
  | some b => b
  | none => c.agentic

/-- Product-mode resolution in `buildCommand`: per-call override when
non-empty. -/
def resolveProductMode (c : RAGConfig) (options : RAGQueryOptions) : String :=
  if options.productMode ≠ "" then options.productMode else c.productMode

/-- The always-emitted numeric flag block of `buildCommand`, in source
order: context window limit, full-text ratio, segment ratio, relevance
threshold. -/
def numericFlagBlock (c : RAGConfig) : List String :=
  ["--rag_context_window_limit", toString c.ragContextWindowLimit,
   "--full_text_ratio", fmtF1 c.fullTextRatio,
   "--segment_ratio", fmtF1 c.segmentRatio,
   "--rag_doc_filter_relevance", toString (ratTrunc c.ragDocFilterRelevance)]

/-- `buildCommand` (client source).  Each Go
`if cond { cmd = append(cmd, xs...) }` is rendered as
`++ (if cond then xs else [])`, which builds the same list. -/
def buildCommand (c : RAGConfig) (options : RAGQueryOptions) : List String :=
  [c.commandPath, "run", "--doc_dir", c.docDir]
    ++ (if resolveModel c options ≠ "" then ["--model", resolveModel c options] else [])
    ++ (if resolveModelFile c options ≠ "" then ["--model_file", resolveModelFile c options] else [])
    ++ ["--output_format", resolveOutputFormat options]
    ++ (if resolveAgentic c options then ["--agentic"] else [])
    ++ (if resolveProductMode c options = "pro" then ["--pro"]
        else if resolveProductMode c options = "lite" then ["--lite"] else [])
    ++ numericFlagBlock c
    ++ (if c.enableHybridIndex then ["--enable_hybrid_index"] else [])
    ++ (if c.disableAutoWindow then ["--disable_auto_window"] else [])
    ++ (if c.disableSegmentReorder then ["--disable_segment_reorder"] else [])

/-! ## `buildEnv` (client source) -/

/-- Go map assignment `envMap[k] = v` on a string map. -/
def envUpdate (m : List (String × String)) (k v : String) : List (String × String) :=
  if m.any (fun p => p.1 = k) then
    m.map (fun p => if p.1 = k then (k, v) else p)
  else m ++ [(k, v)]

/-- Go map read on a string map (at most one binding per key, so the first
match is the binding). -/
def envLookup : List (String × String) → String → Option String
  | [], _ => none
  | (k', v) :: m, k => if k' = k then some v else envLookup m k

/-- `strings.SplitN(e, "=", 2)` keyed split: `none` when the entry has no
`=` (such an entry is skipped by `buildEnv`). -/
def parseEnvEntry (e : String) : Option (String × String) :=
  match e.data.findIdx? (fun c => c = '=') with
  | none => none
  | some i => some (⟨e.data.take i⟩, ⟨e.data.drop (i + 1)⟩)

/-- Layer 1 of `buildEnv`: fold the inherited `os.Environ` entries into the
map (later duplicate entries overwrite earlier ones). -/
def sysEnvMap (sys : List String) : List (String × String) :=
  sys.foldl (fun m e =>
    match parseEnvEntry e with
    | some (k, v) => envUpdate m k v
    | none => m) []

/-- The fixed Windows UTF-8 overlay pairs, in source order. -/
def windowsUtf8Pairs : List (String × String) :=
  [("PYTHONIOENCODING", "utf-8"), ("LANG", "zh_CN.UTF-8"),
   ("LC_ALL", "zh_CN.UTF-8"), ("CHCP", "65001")]

/-- Overlay a list of key/value pairs onto a map by repeated assignment
(the Go `for k, v := range m { envMap[k] = v }` loops; a Go map has unique
keys, so the range order is immaterial for lists without duplicate keys). -/
def overlayEnv (m : List (String × String)) (kvs : List (String × String)) :
    List (String × String) :=
  kvs.foldl (fun m p => envUpdate m p.1 p.2) m

/-- `buildEnv` (client source), as the final key→value map: inherited
environment, then the Windows UTF-8 overlay (only when the toggle is on
and `runtime.GOOS == "windows"`), then the session `config.Envs`, then the
per-call `options.Envs`.  (The Go function then serialises the map back to
`k=v` strings in map order; the binding per key is what the claims are
about.) -/
def buildEnvMap (c : RAGConfig) (options : Option RAGQueryOptions) (goos : String)
    (sys : List String) : List (String × String) :=
  let m := sysEnvMap sys
  let m := if c.windowsUtf8Env && goos = "windows" then overlayEnv m windowsUtf8Pairs else m
  let m := overlayEnv m c.envs
  match options with
  | some o =>
    match o.envs with
    | some kvs => overlayEnv m kvs
    | none => m
  | none => m

/-! ## `QueryStreamMessages` option sanitisation (client source) -/

/-- The options record `QueryStreamMessages` actually passes to
`buildCommand`/`buildEnv`: output format forced to `stream-json`; only
`Agentic`, `ProductMode`, `Model` and `Timeout` survive from the caller's
record; `ModelFile` and `Envs` are dropped. -/
def queryStreamMessagesOptions : Option RAGQueryOptions → RAGQueryOptions
  | none =>
    { outputFormat := "stream-json", agentic := none, productMode := "",
      model := "", modelFile := "", timeout := none, envs := none }
  | some o =>
    { outputFormat := "stream-json", agentic := o.agentic, productMode := o.productMode,
      model := o.model, modelFile := "", timeout := o.timeout, envs := none }

/-! ## JSON text: serialisation (model of Go `json.Marshal`)

Go's `Marshal` of a `map[string]interface{}` emits keys in sorted order; an
object's association list here is the map's chosen representative, and the
serialiser emits it in list order.  `Marshal` additionally HTML-escapes
`<`, `>`, `&` as `<`/`>`/`&`; the model emits them raw —
both spellings denote the same string and re-parse identically. -/

def digitChar : Nat → Char
  | 0 => '0' | 1 => '1' | 2 => '2' | 3 => '3' | 4 => '4'
  | 5 => '5' | 6 => '6' | 7 => '7' | 8 => '8' | _ => '9'

def hexDigitChar : Nat → Char
  | 0 => '0' | 1 => '1' | 2 => '2' | 3 => '3' | 4 => '4'
  | 5 => '5' | 6 => '6' | 7 => '7' | 8 => '8' | 9 => '9'
  | 10 => 'a' | 11 => 'b' | 12 => 'c' | 13 => 'd' | 14 => 'e' | _ => 'f'

/-- Fuelled digit accumulation (most significant first); `fuel > n`
always suffices, so `natDigits` below never exhausts it. -/
def natDigitsAux : Nat → Nat → List Char → List Char
  | 0, _, acc => acc
  | fuel + 1, n, acc =>
    if n < 10 then digitChar n :: acc
    else natDigitsAux fuel (n / 10) (digitChar (n % 10) :: acc)

/-- Decimal digits of a natural number, most significant first. -/
def natDigits (n : Nat) : List Char := natDigitsAux (n + 1) n []

theorem natDigitsAux_acc (fuel : Nat) :
    ∀ (n : Nat) (acc : List Char),
      natDigitsAux fuel n acc = natDigitsAux fuel n [] ++ acc := by
  induction fuel with
  | zero => intro n acc; rfl
  | succ fuel ih =>
    intro n acc
    by_cases h : n < 10
    · simp [natDigitsAux, h]
    · simp only [natDigitsAux, if_neg h]
      rw [ih (n / 10) (digitChar (n % 10) :: acc), ih (n / 10) [digitChar (n % 10)]]
      simp

theorem natDigitsAux_fuel (n : Nat) :
    ∀ f1 f2 acc, n < f1 → n < f2 → natDigitsAux f1 n acc = natDigitsAux f2 n acc := by
  induction n using Nat.strong_induction_on with
  | _ n ih =>
    intro f1 f2 acc h1 h2
    cases f1 with
    | zero => omega
    | succ f1 =>
      cases f2 with
      | zero => omega
      | succ f2 =>
        by_cases h : n < 10
        · simp [natDigitsAux, h]
        · simp only [natDigitsAux, if_neg h]
          exact ih (n / 10) (by omega) f1 f2 _ (by omega) (by omega)

/-- The recursive unfolding of `natDigits`. -/
theorem natDigits_eq (n : Nat) :
    natDigits n = if n < 10 then [digitChar n]
                  else natDigits (n / 10) ++ [digitChar (n % 10)] := by
  by_cases h : n < 10
  · simp [natDigits, natDigitsAux, h]
  · rw [if_neg h]
    show natDigitsAux (n + 1) n [] = natDigits (n / 10) ++ [digitChar (n % 10)]
    rw [show natDigitsAux (n + 1) n [] = natDigitsAux n (n / 10) [digitChar (n % 10)] from by
        simp [natDigitsAux, h]]
    rw [natDigitsAux_fuel (n / 10) n (n / 10 + 1) _ (by omega) (by omega),
      natDigitsAux_acc]
    rfl

/-- Decimal rendering of an integer (Go renders integral JSON numbers this
way). -/
def serInt (n : Int) : List Char :=
  if n < 0 then '-' :: natDigits (-n).toNat else natDigits n.toNat

/-- JSON string escaping of one character. -/
def escapeChar (c : Char) : List Char :=
  if c = '"' then ['\\', '"']
  else if c = '\\' then ['\\', '\\']
  else if c = '\n' then ['\\', 'n']
  else if c = '\r' then ['\\', 'r']
  else if c = '\t' then ['\\', 't']
  else if c.toNat < 32 then
    ['\\', 'u', '0', '0', hexDigitChar (c.toNat / 16), hexDigitChar (c.toNat % 16)]
  else [c]

/-- A JSON string literal, quotes included. -/
def serStrChars (s : List Char) : List Char :=
  '"' :: (List.flatten (s.map escapeChar) ++ ['"'])

mutual

/-- Serialised form of a JSON value, as characters. -/
def serJson : Json → List Char
  | .null => 'n' :: ['u', 'l', 'l']
  | .bool false => 'f' :: ['a', 'l', 's', 'e']
  | .bool true => 't' :: ['r', 'u', 'e']
  | .num n => serInt n
  | .str s => serStrChars s.data
  | .arr [] => ['[', ']']
  | .arr (x :: xs) => '[' :: (serJson x ++ serArrTail xs ++ [']'])
  | .obj [] => ['\x7b', '\x7d']
  | .obj ((k, v) :: kvs) =>
    '\x7b' :: (serStrChars k.data ++ ':' :: (serJson v ++ serObjTail kvs ++ ['\x7d']))

def serArrTail : List Json → List Char
  | [] => []
  | x :: xs => ',' :: (serJson x ++ serArrTail xs)

def serObjTail : List (String × Json) → List Char
  | [] => []
  | (k, v) :: kvs => ',' :: (serStrChars k.data ++ ':' :: (serJson v ++ serObjTail kvs))

end

/-! ## JSON text: parsing (model of Go `json.Unmarshal` into `interface{}`)

Restrictions of the model, none of which a claim in scope depends on:
numbers are integer literals (no fraction/exponent), object-key matching
for struct decoding is exact-case, and a `\u` escape denoting an invalid
code point is left to `Char.ofNat`'s fallback rather than U+FFFD. -/

def isWsChar (c : Char) : Bool :=
  c = ' ' || c = '\t' || c = '\n' || c = '\r'

def skipWs : List Char → List Char
  | [] => []
  | c :: r => if isWsChar c then skipWs r else c :: r

def hexVal (c : Char) : Option Nat :=
  if c.isDigit then some (c.toNat - 48)
  else if 'a' ≤ c ∧ c ≤ 'f' then some (c.toNat - 87)
  else if 'A' ≤ c ∧ c ≤ 'F' then some (c.toNat - 55)
  else none

/-- Body of a JSON string literal after the opening quote; returns the
decoded characters and the input after the closing quote.  Raw control
characters are refused, as in Go. -/
def parseStrBody : List Char → List Char → Option (List Char × List Char)
  | _, [] => none
  | acc, '"' :: r => some (acc.reverse, r)
  | acc, '\\' :: 'n' :: r => parseStrBody ('\n' :: acc) r
  | acc, '\\' :: 't' :: r => parseStrBody ('\t' :: acc) r
  | acc, '\\' :: 'r' :: r => parseStrBody ('\r' :: acc) r
  | acc, '\\' :: 'b' :: r => parseStrBody ('\x08' :: acc) r
  | acc, '\\' :: 'f' :: r => parseStrBody ('\x0c' :: acc) r
  | acc, '\\' :: '"' :: r => parseStrBody ('"' :: acc) r
  | acc, '\\' :: '\\' :: r => parseStrBody ('\\' :: acc) r
  | acc, '\\' :: '/' :: r => parseStrBody ('/' :: acc) r
  | acc, '\\' :: 'u' :: h1 :: h2 :: h3 :: h4 :: r =>
    match hexVal h1, hexVal h2, hexVal h3, hexVal h4 with
    | some a, some b, some c, some d =>
      parseStrBody (Char.ofNat (4096 * a + 256 * b + 16 * c + d) :: acc) r
    | _, _, _, _ => none
  | _, '\\' :: _ => none
  | acc, c :: r => if c.toNat < 32 then none else parseStrBody (c :: acc) r

/-- Maximal run of decimal digits. -/
def takeDigits : List Char → List Char × List Char
  | [] => ([], [])
  | c :: r =>
    if c.isDigit then
      let p := takeDigits r
      (c :: p.1, p.2)
    else ([], c :: r)

def digitsToNat (ds : List Char) : Nat :=
  ds.foldl (fun a c => 10 * a + (c.toNat - 48)) 0

/-- The digit run of an integer JSON number: non-empty, no superfluous
leading zero; negated when a minus sign preceded it. -/
def parseNumDigits (neg : Bool) (cs : List Char) : Option (Json × List Char) :=
  match takeDigits cs with
  | ([], _) => none
  | (ds, rest) =>
    if ds.length > 1 ∧ ds.head? = some '0' then none
    else some (.num (if neg then -(digitsToNat ds : Int) else (digitsToNat ds : Int)), rest)

/-- An integer JSON number: optional minus, then the digit run. -/
def parseNum (cs : List Char) : Option (Json × List Char) :=
  match cs with
  | '-' :: r => parseNumDigits true r
  | _ => parseNumDigits false cs

/-- Go-map insertion while parsing object members left to right: a later
duplicate key has already won (it is in `kvs`), so an earlier pair with
the same key is dropped. -/
def objInsert (k : String) (v : Json) (kvs : List (String × Json)) :
    List (String × Json) :=
  if kvs.any (fun p => p.1 = k) then kvs else (k, v) :: kvs

mutual

/-- A JSON value, fuelled recursive descent. -/
def parseVal : Nat → List Char → Option (Json × List Char)
  | 0, _ => none
  | fuel + 1, cs =>
    match skipWs cs with
    | [] => none
    | 'n' :: 'u' :: 'l' :: 'l' :: r => some (.null, r)
    | 't' :: 'r' :: 'u' :: 'e' :: r => some (.bool true, r)
    | 'f' :: 'a' :: 'l' :: 's' :: 'e' :: r => some (.bool false, r)
    | '"' :: r =>
      match parseStrBody [] r with
      | some (s, r') => some (.str ⟨s⟩, r')
      | none => none
    | '[' :: r =>
      match skipWs r with
      | ']' :: r' => some (.arr [], r')
      | r' =>
        match parseArrItems fuel r' with
        | some (xs, r'') => some (.arr xs, r'')
        | none => none
    | '\x7b' :: r =>
      match skipWs r with
      | '\x7d' :: r' => some (.obj [], r')
      | r' =>
        match parseObjItems fuel r' with
        | some (kvs, r'') => some (.obj kvs, r'')
        | none => none
    | c :: r => if c = '-' || c.isDigit then parseNum (c :: r) else none

/-- One-or-more comma-separated array elements up to `]`. -/
def parseArrItems : Nat → List Char → Option (List Json × List Char)
  | 0, _ => none
  | fuel + 1, cs =>
    match parseVal fuel cs with
    | none => none
    | some (j, r) =>
      match skipWs r with
      | ',' :: r' =>
        match parseArrItems fuel r' with
        | some (js, r'') => some (j :: js, r'')
        | none => none
      | ']' :: r' => some ([j], r')
      | _ => none

/-- One-or-more `"key": value` members up to the closing brace. -/
def parseObjItems : Nat → List Char → Option (List (String × Json) × List Char)
  | 0, _ => none
  | fuel + 1, cs =>
    match skipWs cs with
    | '"' :: r =>
      match parseStrBody [] r with
      | none => none
      | some (k, r1) =>
        match skipWs r1 with
        | ':' :: r2 =>
          match parseVal fuel r2 with
          | none => none
          | some (v, r3) =>
            match skipWs r3 with
            | ',' :: r4 =>
              match parseObjItems fuel r4 with
              | some (kvs, r5) => some (objInsert ⟨k⟩ v kvs, r5)
              | none => none
            | '\x7d' :: r4 => some ([(⟨k⟩, v)], r4)
            | _ => none
        | _ => none
    | _ => none

end

/-- Parse one complete JSON document (trailing whitespace only), as
`json.Unmarshal` requires.  The fuel bound exceeds the number of
parser-call steps any input of this length can take. -/
def parseJsonChars (cs : List Char) : Option Json :=
  match parseVal (2 * cs.length + 2) cs with
  | some (j, rest) => if skipWs rest = [] then some j else none
  | none => none

def parseJson (s : String) : Option Json :=
  parseJsonChars s.data

/-! ## `Message.FromJSON` / `Message.ToJSON` (types.go) -/

/-- Shape of an RFC3339 timestamp accepted by `time.Parse(time.RFC3339)`.
Modelled structurally (digit positions and zone shape); calendar range
checks and fractional seconds are outside the model — no claim depends on
timestamp parsing. -/
def rfc3339Zone : List Char → Bool
  | ['Z'] => true
  | ['+', h1, h2, ':', m1, m2] => h1.isDigit && h2.isDigit && m1.isDigit && m2.isDigit
  | ['-', h1, h2, ':', m1, m2] => h1.isDigit && h2.isDigit && m1.isDigit && m2.isDigit
  | _ => false

def rfc3339Valid (s : String) : Bool :=
  match s.data with
  | y1 :: y2 :: y3 :: y4 :: '-' :: mo1 :: mo2 :: '-' :: d1 :: d2 :: 'T' ::
      h1 :: h2 :: ':' :: mi1 :: mi2 :: ':' :: s1 :: s2 :: zone =>
    y1.isDigit && y2.isDigit && y3.isDigit && y4.isDigit &&
    mo1.isDigit && mo2.isDigit && d1.isDigit && d2.isDigit &&
    h1.isDigit && h2.isDigit && mi1.isDigit && mi2.isDigit &&
    s1.isDigit && s2.isDigit && rfc3339Zone zone
  | _ => false

/-- `Message.FromJSON` (types.go): unmarshal the line (the top level must
be an object for `map[string]interface{}`; a top-level `null` also ends in
the missing-`event_type` error), read the timestamp (falling back to the
wall clock, `none`), require a string `event_type`, and take the `data`
object (or an empty map). -/
def messageFromJSON (s : String) : Option Message :=
  match parseJson s with
  | some (.obj fields) =>
    let timestamp : Option String :=
      match lookupJ fields "timestamp" with
      | some (.str t) => if rfc3339Valid t then some t else none
      | _ => none
    match lookupJ fields "event_type" with
    | some (.str et) =>
      let data : List (String × Json) :=
        match lookupJ fields "data" with
        | some (.obj d) => d
        | _ => []
      some { eventType := et, timestamp := timestamp, data := data, rawJSON := s }
    | _ => none
  | _ => none

/-- `Timestamp.Format(time.RFC3339)`: the model keeps the accepted
timestamp text verbatim and renders a wall-clock (`none`) timestamp as a
fixed placeholder; claims exclude timestamp formatting. -/
def formatTimestamp : Option String → String
  | some t => t
  | none => "0001-01-01T00:00:00Z"

/-- `Message.ToJSON` (types.go): marshal
`{"event_type": ..., "timestamp": ..., "data": ...}`.  Go emits map keys
sorted, hence the `data`, `event_type`, `timestamp` order. -/
def messageToJSON (m : Message) : String :=
  ⟨serJson (.obj [("data", .obj m.data), ("event_type", .str m.eventType),
                  ("timestamp", .str (formatTimestamp m.timestamp))])⟩

/-! ## `QueryStreamMessages` output loop (client source) -/

/-- `strings.TrimSpace` (ASCII whitespace; the claims' inputs are ASCII). -/
def trimChars (cs : List Char) : List Char :=
  ((cs.dropWhile isWsChar).reverse.dropWhile isWsChar).reverse

/-- One line of subprocess output as the stream loop treats it: trim,
skip when blank, parse, skip when ill-formed. -/
def processLine (line : String) : Option Message :=
  let l : String := ⟨trimChars line.data⟩
  if l = "" then none else messageFromJSON l

/-- The scanner loop of `QueryStreamMessages`: each line yields at most
one emitted message; blank and unparsable lines are skipped and the loop
continues. -/
def streamLoop : List String → List Message
  | [] => []
  | line :: rest =>
    match processLine line with
    | none => streamLoop rest
    | some m => m :: streamLoop rest

/-! ## `CountTokens` (client source) -/

structure TokenCountFileResult where
  file : String
  characters : Int
  tokens : Int

structure TokenCountResult where
  files : List TokenCountFileResult
  totalCharacters : Int
  totalTokens : Int
  rawOutput : String

structure TokenCountOptions where
  tokenizerPath : String
  timeout : Int
  envs : Option (List (String × String))

/-- The option defaulting at the top of `CountTokens`: `nil` options, or a
zero timeout, become a 60-second timeout. -/
def countTokensResolveOptions : Option TokenCountOptions → TokenCountOptions
  | none => { tokenizerPath := "", timeout := 60, envs := none }
  | some o => if o.timeout = 0 then { o with timeout := 60 } else o

/-- The argument vector `CountTokens` builds: the counting subcommand with
JSON output always forced, plus the optional tokenizer path. -/
def countTokensCmd (filePath : String) (options : Option TokenCountOptions) :
    List String :=
  let o := countTokensResolveOptions options
  ["auto-coder.rag", "tools", "count", "--file", filePath, "--output_format", "json"]
    ++ (if o.tokenizerPath ≠ "" then ["--tokenizer_path", o.tokenizerPath] else [])

/-- Go `json.Unmarshal` of a number into an `int` field: missing or `null`
leaves the zero value; a non-number is a type error. -/
def decodeNumField (fields : List (String × Json)) (k : String) : Option Int :=
  match lookupJ fields k with
  | none => some 0
  | some .null => some 0
  | some (.num n) => some n
  | some _ => none

/-- Go `json.Unmarshal` of a string field, with zero-value fallback. -/
def decodeStrField (fields : List (String × Json)) (k : String) : Option String :=
  match lookupJ fields k with
  | none => some ""
  | some .null => some ""
  | some (.str s) => some s
  | some _ => none

/-- One element of the `files` array, decoded as `TokenCountFileResult`. -/
def decodeFileEntry : Json → Option TokenCountFileResult
  | .null => some ⟨"", 0, 0⟩
  | .obj fs => do
    let file ← decodeStrField fs "file"
    let ch ← decodeNumField fs "characters"
    let tk ← decodeNumField fs "tokens"
    some ⟨file, ch, tk⟩
  | _ => none

/-- The fixed schema `parseTokenCountJsonOutput` unmarshals into:
`files` (array), `totalCharacters`, `totalTokens`; unknown fields are
ignored, a wrong-typed field is an unmarshal error. -/
def decodeTokenCountSchema : Json → Option (List TokenCountFileResult × Int × Int)
  | .null => some ([], 0, 0)
  | .obj fs => do
    let files ← match lookupJ fs "files" with
      | none => some []
      | some .null => some []
      | some (.arr xs) => xs.mapM decodeFileEntry
      | some _ => none
    let tc ← decodeNumField fs "totalCharacters"
    let tt ← decodeNumField fs "totalTokens"
    some (files, tc, tt)
  | _ => none

/-- `parseTokenCountJsonOutput` (client source): a parse or schema failure
is a `RAGError` carrying up to 200 characters of the output; success
carries the decoded fields plus the raw output. -/
def parseTokenCountJsonOutput (output : String) : Except SDKError TokenCountResult :=
  match (parseJson output).bind decodeTokenCountSchema with
  | none =>
    .error (.rag ("Failed to parse JSON output. Output was: " ++ (⟨output.data.take 200⟩ : String)))
  | some (files, tc, tt) => .ok ⟨files, tc, tt, output⟩

/-- Result of running the counting subprocess: it either started and
completed with an exit code and combined output, or failed to start.
`CombinedOutput` returns a non-nil error for a completed process exactly
when the exit code is non-zero. -/
inductive ExecOutcome where
  | completed (exitCode : Int) (output : String)
  | startFailed (errMsg : String)

/-- The outcome handling of `CountTokens`: non-zero exit is an
`ExecutionError` carrying the captured output and exit code; a start
failure is a `RAGError`; a clean exit parses the trimmed output. -/
def countTokensRun (outcome : ExecOutcome) : Except SDKError TokenCountResult :=
  match outcome with
  | .startFailed m => .error (.rag ("Error executing token count: " ++ m))
  | .completed code out =>
    if code ≠ 0 then .error (.execution out code)
    else parseTokenCountJsonOutput ⟨trimChars out.data⟩

/-! ## Lemmas: the collector's fold -/

/-- The token contribution of one message as the collector counts it: zero
for a message recognised as content, contexts or end (those branches run
first), otherwise the `tokens` payload when present. -/
def countedTokens (m : Message) : TokenInfo :=
  if m.IsContent || m.IsContexts || m.IsEnd then ⟨0, 0⟩
  else (m.GetTokens).getD ⟨0, 0⟩

theorem collectStep_fields (st : CollectState) (m : Message) :
    (collectStep st m).contentParts
        = st.contentParts ++ (if m.IsContent then [m.GetContent] else [])
    ∧ (collectStep st m).contexts
        = st.contexts ++ (if m.IsContexts then (m.GetContexts).getD [] else [])
    ∧ (collectStep st m).tokensInput = st.tokensInput + (countedTokens m).input
    ∧ (collectStep st m).tokensGenerated
        = st.tokensGenerated + (countedTokens m).generated := by
  unfold collectStep countedTokens
  by_cases h1 : m.IsContent
  · have h2 : m.IsContexts = false := by
      simp only [Message.IsContent, MessageTypeContent, decide_eq_true_eq] at h1
      simp [Message.IsContexts, MessageTypeContexts, h1]
    simp [h1, h2]
  · by_cases h2 : m.IsContexts
    · simp [h1, h2]
    · by_cases h3 : m.IsEnd
      · simp [h1, h2, h3]
      · cases ht : m.GetTokens with
        | none => simp [h1, h2, h3, ht]
        | some t => simp [h1, h2, h3, ht]

/-- The collector state after folding a list of messages, field by field. -/
theorem foldState_spec (msgs : List Message) (st : CollectState) :
    (msgs.foldl collectStep st).contentParts
        = st.contentParts
          ++ msgs.filterMap (fun m => if m.IsContent then some m.GetContent else none)
    ∧ (msgs.foldl collectStep st).contexts
        = st.contexts
          ++ (msgs.map (fun m => if m.IsContexts then (m.GetContexts).getD [] else [])).flatten
    ∧ (msgs.foldl collectStep st).tokensInput
        = st.tokensInput + (msgs.map (fun m => (countedTokens m).input)).sum
    ∧ (msgs.foldl collectStep st).tokensGenerated
        = st.tokensGenerated + (msgs.map (fun m => (countedTokens m).generated)).sum := by
  induction msgs generalizing st with
  | nil => simp
  | cons m rest ih =>
    obtain ⟨hc, hx, hi, hg⟩ := ih (collectStep st m)
    obtain ⟨fc, fx, fi, fg⟩ := collectStep_fields st m
    refine ⟨?_, ?_, ?_, ?_⟩
    · rw [List.foldl_cons, hc, fc]
      by_cases h : m.IsContent <;> simp [h]
    · rw [List.foldl_cons, hx, fx]
      by_cases h : m.IsContexts <;> simp [h]
    · rw [List.foldl_cons, hi, fi]; simp; ring
    · rw [List.foldl_cons, hg, fg]; simp; ring

/-- An error-free event stream is the fold of its messages, closed by the
success response. -/
theorem collectEvents_msgs (msgs : List Message) (st : CollectState) :
    collectEvents st (msgs.map .msg)
      = (msgs.foldl collectStep st, finalResponse (msgs.foldl collectStep st), none) := by
  induction msgs generalizing st with
  | nil => simp [collectEvents]
  | cons m rest ih => simp [collectEvents, ih]

/-! ## Claim C1 -/

/-- Formalises the words of claim C1's token clause: the sum, once per
message, of the input token fields of every message that carries a
`tokens` payload (regardless of its event type). -/
def specTokensSumInput (msgs : List Message) : Int :=
  ((msgs.filterMap Message.GetTokens).map TokenInfo.input).sum

/-- The four messages of the claim's example sequence:
`{content:"a"}`, `{content:"b"}`, `{tokens:{input:5,generated:2}}`,
`{end, metadata:{...}}`. -/
def exMsgContentA : Message := ⟨"content", none, [("content", .str "a")], ""⟩

def exMsgContentB : Message := ⟨"content", none, [("content", .str "b")], ""⟩

def exMsgTokens : Message :=
  ⟨"tokens", none, [("tokens", .obj [("input", .num 5), ("generated", .num 2)])], ""⟩

def exMsgEnd : Message := ⟨"end", none, [("metadata", .obj [("k", .str "v")])], ""⟩

def exampleMsgs : List Message := [exMsgContentA, exMsgContentB, exMsgTokens, exMsgEnd]

/-- A content message that also carries a `tokens` payload: the claim as
stated counts its tokens, the code does not (the content branch runs
first). -/
def cexContentWithTokens : Message :=
  ⟨"content", none,
   [("content", .str "a"), ("tokens", .obj [("input", .num 5), ("generated", .num 2)])], ""⟩

/-- C1, counterexample: for the single-message sequence
`[{content:"a", tokens:{input:5,generated:2}}]` the claim's token total is
5 but the aggregation's input total is 0 — tokens are not summed over
*every* message that carries a tokens payload. -/
theorem C1_counterexample :
    cexContentWithTokens.GetTokens = some ⟨5, 2⟩
    ∧ specTokensSumInput [cexContentWithTokens] = 5
    ∧ (collectEvents initCollectState ([cexContentWithTokens].map .msg)).1.tokensInput = 0
    ∧ (0 : Int) ≠ 5 :=
  ⟨rfl, rfl, rfl, by decide⟩

/-- C1 (amended): for every finite message sequence the aggregated answer
is the concatenation of the content fragments of all content messages in
emission order, and the token totals sum, once per message, the token
fields of every message that is **not recognised as a content, contexts or
end message** and carries a tokens payload; on the claim's example
sequence the answer is `"ab"` and the totals are input 5, generated 2. -/
theorem C1_collect_concat_and_counted_tokens (msgs : List Message) :
    (collectEvents initCollectState (msgs.map .msg)).2.1.answer
        = String.join (msgs.filterMap (fun m => if m.IsContent then some m.GetContent else none))
    ∧ (collectEvents initCollectState (msgs.map .msg)).1.tokensInput
        = (msgs.map (fun m => (countedTokens m).input)).sum
    ∧ (collectEvents initCollectState (msgs.map .msg)).1.tokensGenerated
        = (msgs.map (fun m => (countedTokens m).generated)).sum
    ∧ (collectEvents initCollectState (exampleMsgs.map .msg)).2.1.answer = "ab"
    ∧ (collectEvents initCollectState (exampleMsgs.map .msg)).1.tokensInput = 5
    ∧ (collectEvents initCollectState (exampleMsgs.map .msg)).1.tokensGenerated = 2 := by
  obtain ⟨hc, hx, hi, hg⟩ := foldState_spec msgs initCollectState
  refine ⟨?_, ?_, ?_, rfl, rfl, rfl⟩
  · rw [collectEvents_msgs]
    simpa [finalResponse, initCollectState] using congrArg String.join hc
  · rw [collectEvents_msgs]
    simpa [initCollectState] using hi
  · rw [collectEvents_msgs]
    simpa [initCollectState] using hg

/-! ## Claim C2 -/

def endMsgX : Message := ⟨"end", none, [("metadata", .obj [("x", .num 1)])], ""⟩

def endMsgY : Message := ⟨"end", none, [("metadata", .obj [("y", .num 2)])], ""⟩

/-- C2, counterexample: two streams whose end events carry different
metadata payloads produce identical responses — `RAGResponse` has no
metadata field, so the response does not carry the final end event's
metadata. -/
theorem C2_counterexample :
    queryCollectMessages [.msg endMsgX] = queryCollectMessages [.msg endMsgY]
    ∧ endMsgX.GetMetadata ≠ endMsgY.GetMetadata := by
  refine ⟨rfl, ?_⟩
  intro h
  simp [Message.GetMetadata, lookupJ, endMsgX, endMsgY] at h

/-- C2 (amended): for every error-free stream the response carries the
final answer (content fragments concatenated in order), the flattened
context strings of all contexts events, and a success status; the final
end event's metadata is read into a local variable but is **not** part of
the returned response. -/
theorem C2_success_response (msgs : List Message) :
    queryCollectMessages (msgs.map .msg)
      = ({ success := true,
           answer := String.join
             (msgs.filterMap (fun m => if m.IsContent then some m.GetContent else none)),
           contexts :=
             (msgs.map (fun m => if m.IsContexts then (m.GetContexts).getD [] else [])).flatten,
           error := "" }, none) := by
  obtain ⟨hc, hx, hi, hg⟩ := foldState_spec msgs initCollectState
  unfold queryCollectMessages
  rw [collectEvents_msgs]
  simp only [finalResponse]
  refine congrArg₂ Prod.mk ?_ rfl
  have h1 : String.join (List.foldl collectStep initCollectState msgs).contentParts
      = String.join (msgs.filterMap (fun m => if m.IsContent then some m.GetContent else none)) := by
    simpa [initCollectState] using congrArg String.join hc
  have h2 : (List.foldl collectStep initCollectState msgs).contexts
      = (msgs.map (fun m => if m.IsContexts then (m.GetContexts).getD [] else [])).flatten := by
    simpa [initCollectState] using hx
  simp [h1, h2]

/-! ## Claim C7 -/

theorem collectEvents_fail (pre : List Message) (e : SDKError) (rest : List CEvent)
    (st : CollectState) :
    (collectEvents st (pre.map .msg ++ .fail e :: rest)).2
      = ({ success := false, answer := "", contexts := [], error := e.errMsg }, some e) := by
  induction pre generalizing st with
  | nil => simp [collectEvents]
  | cons m pre ih => simp [collectEvents, ih]

/-- C7: whatever messages arrive before an error on the error channel, the
collector returns at the error with exactly that error, an empty answer
and an unsuccessful status — partial content is discarded. -/
theorem C7_error_discards_partial (pre : List Message) (e : SDKError) (rest : List CEvent) :
    queryCollectMessages (pre.map .msg ++ .fail e :: rest)
      = ({ success := false, answer := "", contexts := [], error := e.errMsg }, some e) := by
  have h := collectEvents_fail pre e rest initCollectState
  unfold queryCollectMessages
  exact congrArg (fun p => (p.1, p.2)) h

/-! ## Claim C3 -/

theorem streamLoop_eq_filterMap (lines : List String) :
    streamLoop lines = lines.filterMap processLine := by
  induction lines with
  | nil => rfl
  | cons l rest ih => cases h : processLine l <;> simp [streamLoop, h, ih]

/-- C3: the stream loop emits exactly the messages of the lines that
trim to non-blank, well-formed protocol messages, in arrival order, and a
line that is blank or fails to parse is skipped without affecting the
emitted sequence. -/
theorem C3_stream_skips_malformed :
    (∀ lines : List String, streamLoop lines = lines.filterMap processLine)
    ∧ ∀ (pre post : List String) (l : String), processLine l = none →
        streamLoop (pre ++ l :: post) = streamLoop (pre ++ post) := by
  refine ⟨streamLoop_eq_filterMap, ?_⟩
  intro pre post l h
  rw [streamLoop_eq_filterMap, streamLoop_eq_filterMap, List.filterMap_append,
    List.filterMap_append, List.filterMap_cons, h]

def goodLine1 : String := "\x7b\"event_type\":\"content\",\"data\":\x7b\"content\":\"a\"\x7d\x7d"

def goodLine2 : String := "\x7b\"event_type\":\"content\",\"data\":\x7b\"content\":\"b\"\x7d\x7d"

/-- Witness for C3: an invalid JSON line and a blank line are both
skipped from a concrete stream of well-formed lines. -/
theorem C3_witness :
    (processLine "not json" = none
      ∧ streamLoop [goodLine1, "not json", goodLine2] = streamLoop [goodLine1, goodLine2])
    ∧ (processLine "" = none
      ∧ streamLoop [goodLine1, "", goodLine2] = streamLoop [goodLine1, goodLine2]) :=
  ⟨⟨rfl, C3_stream_skips_malformed.2 [goodLine1] [goodLine2] "not json" rfl⟩,
   ⟨rfl, C3_stream_skips_malformed.2 [goodLine1] [goodLine2] "" rfl⟩⟩

/-! ## Claim C4 -/

/-- The default per-call options `Query` substitutes for `nil`. -/
def queryDefaultOptions : RAGQueryOptions :=
  { outputFormat := "text", agentic := none, productMode := "", model := "",
    modelFile := "", timeout := none, envs := none }

/-- C4: the command builder is a function of the configuration and options
(identical inputs give byte-identical argument vectors), and every
argument vector contains the four numeric flags, always emitted, as one
contiguous block in the fixed order context window limit, full-text ratio,
segment ratio, relevance threshold. -/
theorem C4_command_deterministic_fixed_numeric_order
    (c c' : RAGConfig) (o o' : RAGQueryOptions) (h1 : c = c') (h2 : o = o') :
    buildCommand c o = buildCommand c' o'
    ∧ ∃ pre post, buildCommand c o = pre ++ numericFlagBlock c ++ post
        ∧ numericFlagBlock c
            = ["--rag_context_window_limit", toString c.ragContextWindowLimit,
               "--full_text_ratio", fmtF1 c.fullTextRatio,
               "--segment_ratio", fmtF1 c.segmentRatio,
               "--rag_doc_filter_relevance", toString (ratTrunc c.ragDocFilterRelevance)] := by
  subst h1; subst h2
  refine ⟨rfl,
    [c.commandPath, "run", "--doc_dir", c.docDir]
      ++ (if resolveModel c o ≠ "" then ["--model", resolveModel c o] else [])
      ++ (if resolveModelFile c o ≠ "" then ["--model_file", resolveModelFile c o] else [])
      ++ ["--output_format", resolveOutputFormat o]
      ++ (if resolveAgentic c o then ["--agentic"] else [])
      ++ (if resolveProductMode c o = "pro" then ["--pro"]
          else if resolveProductMode c o = "lite" then ["--lite"] else []),
    (if c.enableHybridIndex then ["--enable_hybrid_index"] else [])
      ++ (if c.disableAutoWindow then ["--disable_auto_window"] else [])
      ++ (if c.disableSegmentReorder then ["--disable_segment_reorder"] else []),
    by simp [buildCommand, List.append_assoc], rfl⟩

/-- Witness for C4 at the default configuration and default options. -/
theorem C4_witness :
    buildCommand (newRAGConfig "/docs") queryDefaultOptions
        = buildCommand (newRAGConfig "/docs") queryDefaultOptions
    ∧ ∃ pre post,
        buildCommand (newRAGConfig "/docs") queryDefaultOptions
          = pre ++ numericFlagBlock (newRAGConfig "/docs") ++ post
        ∧ numericFlagBlock (newRAGConfig "/docs")
            = ["--rag_context_window_limit",
               toString (newRAGConfig "/docs").ragContextWindowLimit,
               "--full_text_ratio", fmtF1 (newRAGConfig "/docs").fullTextRatio,
               "--segment_ratio", fmtF1 (newRAGConfig "/docs").segmentRatio,
               "--rag_doc_filter_relevance",
               toString (ratTrunc (newRAGConfig "/docs").ragDocFilterRelevance)] :=
  C4_command_deterministic_fixed_numeric_order _ _ _ _ rfl rfl

/-! ## Claim C6 -/

/-- C6: a non-existent document directory, or a product mode outside
`{lite, pro}`, makes client construction fail with a `ValidationError`
and return no client value.  The constructor is a pure function of the
configuration and the directory-existence predicate: it contains no
process invocation, so validation necessarily precedes any spawn. -/
theorem C6_validation_rejects (dirExists : String → Bool) (config : RAGConfig) :
    (¬ dirExists config.docDir →
        newRAGClientWithConfig dirExists config
          = .error (.validation ("文档目录不存在: " ++ config.docDir)))
    ∧ (config.productMode ≠ "lite" ∧ config.productMode ≠ "pro" →
        ∃ msg, newRAGClientWithConfig dirExists config = .error (.validation msg))
    ∧ ((¬ dirExists config.docDir ∨ (config.productMode ≠ "lite" ∧ config.productMode ≠ "pro")) →
        ∀ cl, newRAGClientWithConfig dirExists config ≠ .ok cl) := by
  unfold newRAGClientWithConfig validateConfig
  by_cases hd : dirExists config.docDir
  · by_cases hm : config.productMode ≠ "lite" ∧ config.productMode ≠ "pro"
    · simp [hd, hm]
    · simp [hd, hm]
  · simp [hd]

/-- Witness for C6: a predicate under which no directory exists rejects
the default configuration; an existing directory with product mode
`"turbo"` is also rejected. -/
theorem C6_witness :
    (newRAGClientWithConfig (fun _ => false) (newRAGConfig "/missing")
        = .error (.validation ("文档目录不存在: " ++ (newRAGConfig "/missing").docDir)))
    ∧ ∃ msg, newRAGClientWithConfig (fun _ => true)
          { newRAGConfig "/docs" with productMode := "turbo" }
        = .error (.validation msg) :=
  ⟨(C6_validation_rejects (fun _ => false) (newRAGConfig "/missing")).1 (by simp),
   (C6_validation_rejects (fun _ => true)
      { newRAGConfig "/docs" with productMode := "turbo" }).2.1 (by decide)⟩

/-! ## Claim C10 -/

/-- C10: the options record `QueryStreamMessages` actually uses keeps only
`Agentic`, `ProductMode`, `Model` and `Timeout`, forces `stream-json`
output, and blanks `ModelFile` and `Envs`; hence the per-call overrides of
the latter two are discarded — the model-file flag resolves to the
session's value and the subprocess environment is the session-level one. -/
theorem C10_per_call_modelfile_envs_discarded (o : RAGQueryOptions) (c : RAGConfig)
    (goos : String) (sys : List String) (mf : String)
    (es : Option (List (String × String))) :
    queryStreamMessagesOptions (some o)
      = { outputFormat := "stream-json", agentic := o.agentic, productMode := o.productMode,
          model := o.model, modelFile := "", timeout := o.timeout, envs := none }
    ∧ queryStreamMessagesOptions (some { o with modelFile := mf, envs := es })
        = queryStreamMessagesOptions (some o)
    ∧ resolveModelFile c (queryStreamMessagesOptions (some o)) = c.modelFile
    ∧ buildCommand c (queryStreamMessagesOptions (some { o with modelFile := mf, envs := es }))
        = buildCommand c (queryStreamMessagesOptions (some o))
    ∧ buildEnvMap c (some (queryStreamMessagesOptions (some o))) goos sys
        = buildEnvMap c none goos sys := by
  refine ⟨rfl, rfl, ?_, rfl, rfl⟩
  simp [resolveModelFile, queryStreamMessagesOptions]

/-! ## Claim C5: environment layering -/

/-- The value an `os.Environ` entry contributes for key `k`. -/
def entryValueFor (k e : String) : Option String :=
  match parseEnvEntry e with
  | some (k', v) => if k' = k then some v else none
  | none => none

/-- The binding the inherited environment resolves to: the last entry for
the key wins (later entries overwrite earlier ones in the map fold). -/
def sysLookupLast (sys : List String) (k : String) : Option String :=
  sys.reverse.findSome? (entryValueFor k)

theorem envLookup_map_ne (m : List (String × String)) (k v k' : String) (h : k' ≠ k) :
    envLookup (m.map (fun p => if p.1 = k then (k, v) else p)) k' = envLookup m k' := by
  induction m with
  | nil => rfl
  | cons a m ih =>
    obtain ⟨a1, a2⟩ := a
    rw [List.map_cons]
    by_cases ha : a1 = k
    · rw [if_pos (show ((a1, a2) : String × String).1 = k from ha)]
      simp only [envLookup]
      rw [if_neg (Ne.symm h), if_neg (fun hh : a1 = k' => h (ha ▸ hh).symm), ih]
    · rw [if_neg (show ¬ ((a1, a2) : String × String).1 = k from ha)]
      simp only [envLookup]
      by_cases hk : a1 = k'
      · rw [if_pos hk, if_pos hk]
      · rw [if_neg hk, if_neg hk, ih]

theorem envLookup_map_eq (m : List (String × String)) (k v : String)
    (h : m.any (fun p => p.1 = k)) :
    envLookup (m.map (fun p => if p.1 = k then (k, v) else p)) k = some v := by
  induction m with
  | nil => simp at h
  | cons a m ih =>
    obtain ⟨a1, a2⟩ := a
    rw [List.map_cons]
    by_cases ha : a1 = k
    · rw [if_pos (show ((a1, a2) : String × String).1 = k from ha)]
      simp [envLookup]
    · have h' : m.any (fun p => p.1 = k) := by
        simp only [List.any_cons, Bool.or_eq_true, decide_eq_true_eq] at h
        rcases h with h | h
        · exact absurd h ha
        · exact h
      rw [if_neg (show ¬ ((a1, a2) : String × String).1 = k from ha)]
      simp only [envLookup]
      rw [if_neg ha, ih h']

theorem envLookup_cons (a1 a2 k : String) (m : List (String × String)) :
    envLookup ((a1, a2) :: m) k = if a1 = k then some a2 else envLookup m k := rfl

theorem envLookup_of_not_any (m : List (String × String)) (k : String)
    (h : ¬ m.any (fun p => p.1 = k)) : envLookup m k = none := by
  induction m with
  | nil => rfl
  | cons a m ih =>
    obtain ⟨a1, a2⟩ := a
    simp only [List.any_cons, Bool.or_eq_true, decide_eq_true_eq] at h
    push_neg at h
    simp [envLookup, h.1, ih (by simpa using h.2)]

theorem envLookup_append_one (m : List (String × String)) (k v k' : String) :
    envLookup (m ++ [(k, v)]) k'
      = match envLookup m k' with
        | some w => some w
        | none => if k = k' then some v else none := by
  induction m with
  | nil => simp [envLookup]
  | cons a m ih =>
    obtain ⟨a1, a2⟩ := a
    rw [List.cons_append]
    simp only [envLookup]
    by_cases ha : a1 = k'
    · rw [if_pos ha, if_pos ha]
    · rw [if_neg ha, if_neg ha, ih]

/-- Go map assignment, observed through lookup. -/
theorem envLookup_update (m : List (String × String)) (k v k' : String) :
    envLookup (envUpdate m k v) k' = if k' = k then some v else envLookup m k' := by
  unfold envUpdate
  by_cases hany : m.any (fun p => p.1 = k)
  · rw [if_pos hany]
    by_cases hk : k' = k
    · subst hk; rw [if_pos rfl, envLookup_map_eq m k' v hany]
    · rw [if_neg hk, envLookup_map_ne m k v k' hk]
  · rw [if_neg hany, envLookup_append_one]
    by_cases hk : k' = k
    · subst hk
      rw [envLookup_of_not_any m k' hany]
    · cases h : envLookup m k' with
      | some w => simp [h, hk]
      | none =>
        simp only [h, if_neg hk]
        rw [if_neg (fun hh : k = k' => hk hh.symm)]

/-- Overlaying a duplicate-free key/value list: its binding wins, the
base map answers otherwise. -/
theorem envLookup_overlay (kvs : List (String × String)) (m : List (String × String))
    (hnd : (kvs.map Prod.fst).Nodup) (k : String) :
    envLookup (overlayEnv m kvs) k
      = match envLookup kvs k with
        | some w => some w
        | none => envLookup m k := by
  induction kvs generalizing m with
  | nil => rfl
  | cons a kvs ih =>
    obtain ⟨a1, a2⟩ := a
    simp only [List.map_cons, List.nodup_cons] at hnd
    have step : overlayEnv m ((a1, a2) :: kvs) = overlayEnv (envUpdate m a1 a2) kvs := rfl
    rw [step, ih (envUpdate m a1 a2) hnd.2, envLookup_cons]
    by_cases hk : a1 = k
    · subst hk
      have hnone : envLookup kvs a1 = none := by
        apply envLookup_of_not_any
        intro hc
        simp only [List.any_eq_true, decide_eq_true_eq] at hc
        obtain ⟨p, hp, hpk⟩ := hc
        exact hnd.1 (hpk ▸ List.mem_map_of_mem Prod.fst hp)
      rw [hnone, if_pos rfl, envLookup_update, if_pos rfl]
    · rw [if_neg hk]
      cases h : envLookup kvs k with
      | some w => simp [h]
      | none =>
        simp only [h]
        rw [envLookup_update, if_neg (fun hh : k = a1 => hk hh.symm)]

/-- The inherited-environment fold resolves each key to its last entry. -/
theorem envLookup_sysEnvMap_aux (sys : List String) (m : List (String × String)) (k : String) :
    envLookup (sys.foldl (fun m e =>
        match parseEnvEntry e with
        | some (k, v) => envUpdate m k v
        | none => m) m) k
      = match sysLookupLast sys k with
        | some w => some w
        | none => envLookup m k := by
  induction sys generalizing m with
  | nil => simp [sysLookupLast]
  | cons e sys ih =>
    rw [List.foldl_cons, ih]
    have hlast : sysLookupLast (e :: sys) k
        = match sysLookupLast sys k with
          | some w => some w
          | none => entryValueFor k e := by
      unfold sysLookupLast
      rw [show (e :: sys).reverse = sys.reverse ++ [e] by simp, List.findSome?_append]
      cases List.findSome? (entryValueFor k) sys.reverse with
      | some w => simp [Option.or]
      | none =>
        simp only [Option.or]
        cases hv : entryValueFor k e <;> simp [List.findSome?, hv]
    rw [hlast]
    cases hs : sysLookupLast sys k with
    | some w => simp
    | none =>
      simp only []
      cases hp : parseEnvEntry e with
      | none => simp [entryValueFor, hp]
      | some kv =>
        obtain ⟨k', v⟩ := kv
        rw [envLookup_update]
        simp only [entryValueFor, hp]
        by_cases hk : k = k'
        · subst hk
          rw [if_pos rfl, if_pos rfl]
        · rw [if_neg hk, if_neg (fun hh : k' = k => hk hh.symm)]

theorem envLookup_sysEnvMap (sys : List String) (k : String) :
    envLookup (sysEnvMap sys) k
      = match sysLookupLast sys k with
        | some w => some w
        | none => none := by
  unfold sysEnvMap
  rw [envLookup_sysEnvMap_aux]
  cases sysLookupLast sys k <;> simp [envLookup]

/-- The per-call layer's lookup (`nil` options or `nil` map contribute
nothing). -/
def optEnvsLookup (options : Option RAGQueryOptions) (k : String) : Option String :=
  match options with
  | some o =>
    match o.envs with
    | some l => envLookup l k
    | none => none
  | none => none

/-- C5: every key resolves to the highest-priority layer that binds it —
per-call environment, then session environment, then the Windows UTF-8
overlay (only with the toggle on and `GOOS = "windows"`), then the
inherited environment (where the last duplicate entry wins).  The session
and per-call maps are Go maps, hence duplicate-free. -/
theorem C5_env_layering (c : RAGConfig) (options : Option RAGQueryOptions) (goos : String)
    (sys : List String) (k : String)
    (hc : (c.envs.map Prod.fst).Nodup)
    (ho : ∀ o l, options = some o → o.envs = some l → (l.map Prod.fst).Nodup) :
    envLookup (buildEnvMap c options goos sys) k
      = ((optEnvsLookup options k).orElse (fun _ =>
          (envLookup c.envs k).orElse (fun _ =>
            (if c.windowsUtf8Env && goos = "windows"
             then envLookup windowsUtf8Pairs k else none).orElse (fun _ =>
              sysLookupLast sys k)))) := by
  have base : envLookup
      (if c.windowsUtf8Env && goos = "windows"
       then overlayEnv (sysEnvMap sys) windowsUtf8Pairs else sysEnvMap sys) k
      = (if c.windowsUtf8Env && goos = "windows"
         then envLookup windowsUtf8Pairs k else none).orElse (fun _ =>
           sysLookupLast sys k) := by
    by_cases hw : c.windowsUtf8Env && goos = "windows"
    · rw [if_pos hw, if_pos hw,
        envLookup_overlay windowsUtf8Pairs (sysEnvMap sys) (by decide) k,
        envLookup_sysEnvMap]
      cases envLookup windowsUtf8Pairs k <;> cases sysLookupLast sys k <;> simp
    · rw [if_neg hw, if_neg hw, envLookup_sysEnvMap]
      cases sysLookupLast sys k <;> simp
  have sess : envLookup (overlayEnv
      (if c.windowsUtf8Env && goos = "windows"
       then overlayEnv (sysEnvMap sys) windowsUtf8Pairs else sysEnvMap sys) c.envs) k
      = (envLookup c.envs k).orElse (fun _ =>
          (if c.windowsUtf8Env && goos = "windows"
           then envLookup windowsUtf8Pairs k else none).orElse (fun _ =>
            sysLookupLast sys k)) := by
    rw [envLookup_overlay c.envs _ hc k, base]
    cases envLookup c.envs k <;> simp
  match options with
  | none =>
    simpa [buildEnvMap, optEnvsLookup] using sess
  | some o =>
    match he : o.envs with
    | none =>
      simpa [buildEnvMap, optEnvsLookup, he] using sess
    | some l =>
      have hl : (l.map Prod.fst).Nodup := ho o l rfl he
      have : envLookup (buildEnvMap c (some o) goos sys) k
          = match envLookup l k with
            | some w => some w
            | none => envLookup (overlayEnv
                (if c.windowsUtf8Env && goos = "windows"
                 then overlayEnv (sysEnvMap sys) windowsUtf8Pairs else sysEnvMap sys) c.envs) k := by
        simp only [buildEnvMap, he]
        exact envLookup_overlay l _ hl k
      rw [this, sess]
      simp only [optEnvsLookup, he]
      cases envLookup l k <;> simp

/-- The concrete configuration of the C5 witness: the key `LANG` is bound
at all four layers — per-call, session, UTF-8 overlay and inherited. -/
def c5Config : RAGConfig :=
  { newRAGConfig "/docs" with
      windowsUtf8Env := true,
      envs := [("LANG", "session")] }

def c5Options : RAGQueryOptions :=
  { queryDefaultOptions with envs := some [("LANG", "call")] }

theorem C5_witness :
    envLookup (buildEnvMap c5Config (some c5Options) "windows" ["LANG=inherited"]) "LANG"
      = ((optEnvsLookup (some c5Options) "LANG").orElse
          (fun _ => (envLookup c5Config.envs "LANG").orElse (fun _ =>
            (if c5Config.windowsUtf8Env && "windows" = "windows"
             then envLookup windowsUtf8Pairs "LANG" else none).orElse (fun _ =>
              sysLookupLast ["LANG=inherited"] "LANG")))) :=
  C5_env_layering c5Config (some c5Options) "windows" ["LANG=inherited"] "LANG"
    (by decide)
    (by intro o l h1 h2
        injection h1 with h1
        subst h1
        injection h2 with h2
        subst h2
        decide)

/-! ## Claim C8 -/

/-- C8: `CountTokens` always invokes the counting subcommand with JSON
output forced; for a process that ran to completion it fails with an
`ExecutionError` carrying the captured output and exit code exactly when
the exit code is non-zero, fails with a `RAGError` exactly when the
process succeeded but its (trimmed) output does not parse and decode
against the fixed schema, and otherwise returns the decoded per-file
results and totals (with the trimmed output as raw output). -/
theorem C8_count_tokens_errors (fp : String) (opts : Option TokenCountOptions)
    (code : Int) (out : String) :
    (∃ tail, countTokensCmd fp opts
        = ["auto-coder.rag", "tools", "count", "--file", fp, "--output_format", "json"] ++ tail)
    ∧ (countTokensRun (.completed code out) = .error (.execution out code) ↔ code ≠ 0)
    ∧ ((∃ msg, countTokensRun (.completed code out) = .error (.rag msg))
        ↔ code = 0
          ∧ (parseJson (⟨trimChars out.data⟩ : String)).bind decodeTokenCountSchema = none)
    ∧ (∀ files tc tt,
        (parseJson (⟨trimChars out.data⟩ : String)).bind decodeTokenCountSchema
            = some (files, tc, tt) →
        code = 0 →
        countTokensRun (.completed code out)
          = .ok ⟨files, tc, tt, (⟨trimChars out.data⟩ : String)⟩) := by
  refine ⟨⟨(if (countTokensResolveOptions opts).tokenizerPath ≠ ""
            then ["--tokenizer_path", (countTokensResolveOptions opts).tokenizerPath]
            else []), rfl⟩, ?_, ?_, ?_⟩
  · rcases eq_or_ne code 0 with hc | hc
    · subst hc
      have hrun : countTokensRun (.completed 0 out)
          = parseTokenCountJsonOutput (⟨trimChars out.data⟩ : String) := by
        simp [countTokensRun]
      rw [hrun]
      unfold parseTokenCountJsonOutput
      cases hp : (parseJson (⟨trimChars out.data⟩ : String)).bind decodeTokenCountSchema with
      | none => simp
      | some r => obtain ⟨files, tc, tt⟩ := r; simp
    · have hrun : countTokensRun (.completed code out) = .error (.execution out code) := by
        simp [countTokensRun, hc]
      rw [hrun]
      simp [hc]
  · rcases eq_or_ne code 0 with hc | hc
    · subst hc
      have hrun : countTokensRun (.completed 0 out)
          = parseTokenCountJsonOutput (⟨trimChars out.data⟩ : String) := by
        simp [countTokensRun]
      rw [hrun]
      unfold parseTokenCountJsonOutput
      cases hp : (parseJson (⟨trimChars out.data⟩ : String)).bind decodeTokenCountSchema with
      | none => simp
      | some r => obtain ⟨files, tc, tt⟩ := r; simp
    · have hrun : countTokensRun (.completed code out) = .error (.execution out code) := by
        simp [countTokensRun, hc]
      rw [hrun]
      simp [hc]
  · intro files tc tt hp hc
    subst hc
    have hrun : countTokensRun (.completed 0 out)
        = parseTokenCountJsonOutput (⟨trimChars out.data⟩ : String) := by
      simp [countTokensRun]
    rw [hrun]
    unfold parseTokenCountJsonOutput
    rw [hp]

def goodCountJson : String :=
  "\x7b\"files\":[\x7b\"file\":\"f.md\",\"characters\":10,\"tokens\":3\x7d],\"totalCharacters\":10,\"totalTokens\":3\x7d"

/-- Witness for C8: a non-zero exit yields the `ExecutionError` with that
output and code; a clean exit with schema-conforming output yields the
decoded result. -/
theorem C8_witness :
    countTokensRun (.completed 2 "boom") = .error (.execution "boom" 2)
    ∧ countTokensRun (.completed 0 goodCountJson)
        = .ok ⟨[⟨"f.md", 10, 3⟩], 10, 3, (⟨trimChars goodCountJson.data⟩ : String)⟩ :=
  ⟨(C8_count_tokens_errors "/f" none 2 "boom").2.1.mpr (by decide),
   (C8_count_tokens_errors "/f" none 0 goodCountJson).2.2.2 [⟨"f.md", 10, 3⟩] 10 3 rfl rfl⟩

/-! ## Claim C9: round-trip of serialisation and parsing.

First the number layer: the decimal rendering of an integer parses back
to the same integer. -/

theorem digitChar_isDigit (d : Nat) (h : d < 10) : (digitChar d).isDigit = true := by
  interval_cases d <;> rfl

theorem digitChar_toNat (d : Nat) (h : d < 10) : (digitChar d).toNat - 48 = d := by
  interval_cases d <;> rfl

theorem natDigits_ne_nil (n : Nat) : natDigits n ≠ [] := by
  rw [natDigits_eq]
  by_cases h : n < 10 <;> simp [h]

theorem natDigits_all_digits (n : Nat) : ∀ c ∈ natDigits n, c.isDigit = true := by
  induction n using Nat.strong_induction_on with
  | _ n ih =>
    rw [natDigits_eq]
    by_cases h : n < 10
    · rw [if_pos h]
      intro c hc
      rw [List.mem_singleton] at hc
      subst hc
      exact digitChar_isDigit n h
    · rw [if_neg h]
      intro c hc
      rw [List.mem_append] at hc
      rcases hc with hc | hc
      · exact ih (n / 10) (by omega) c hc
      · rw [List.mem_singleton] at hc
        subst hc
        exact digitChar_isDigit _ (by omega)

theorem digitsToNat_natDigits (n : Nat) : digitsToNat (natDigits n) = n := by
  induction n using Nat.strong_induction_on with
  | _ n ih =>
    rw [natDigits_eq]
    by_cases h : n < 10
    · rw [if_pos h]
      show 10 * 0 + ((digitChar n).toNat - 48) = n
      rw [digitChar_toNat n h]
      omega
    · rw [if_neg h]
      unfold digitsToNat
      rw [List.foldl_append]
      have h1 := ih (n / 10) (by omega)
      unfold digitsToNat at h1
      rw [h1]
      show 10 * (n / 10) + ((digitChar (n % 10)).toNat - 48) = n
      rw [digitChar_toNat _ (by omega)]
      omega

theorem natDigits_head_ne_zero (n : Nat) (hn : n ≠ 0) :
    ∀ c cs, natDigits n = c :: cs → c ≠ '0' := by
  induction n using Nat.strong_induction_on with
  | _ n ih =>
    rw [natDigits_eq]
    by_cases h : n < 10
    · rw [if_pos h]
      intro c cs hc
      injection hc with h1 _
      subst h1
      interval_cases n
      · exact absurd rfl hn
      all_goals decide
    · rw [if_neg h]
      intro c cs hc
      obtain ⟨d, ds, hd⟩ := List.exists_cons_of_ne_nil (natDigits_ne_nil (n / 10))
      rw [hd, List.cons_append] at hc
      injection hc with h1 _
      subst h1
      exact ih (n / 10) (by omega) (by omega) _ _ hd

/-- `true` when parsing may stop here: end of input or a non-digit. -/
def nonDigitStart : List Char → Bool
  | [] => true
  | c :: _ => !c.isDigit

theorem takeDigits_append (ds rest : List Char)
    (hds : ∀ c ∈ ds, c.isDigit = true)
    (hrest : nonDigitStart rest = true) :
    takeDigits (ds ++ rest) = (ds, rest) := by
  induction ds with
  | nil =>
    cases rest with
    | nil => rfl
    | cons c r =>
      simp only [nonDigitStart, Bool.not_eq_true'] at hrest
      simp [takeDigits, hrest]
  | cons c ds ih =>
    have hc : c.isDigit = true := hds c (List.mem_cons_self c ds)
    simp [takeDigits, hc, ih (fun c h => hds c (List.mem_cons_of_mem _ h))]

theorem natDigits_head_ok (m : Nat) :
    ¬ ((natDigits m).length > 1 ∧ (natDigits m).head? = some '0') := by
  intro ⟨hlen, hhead⟩
  obtain ⟨d, ds, hd⟩ := List.exists_cons_of_ne_nil (natDigits_ne_nil m)
  rw [hd] at hlen hhead
  simp only [List.head?_cons, Option.some.injEq] at hhead
  subst hhead
  by_cases hm : m = 0
  · subst hm
    have h0 : natDigits 0 = ['0'] := by rw [natDigits_eq]; rfl
    rw [h0] at hd
    injection hd with _ h2
    subst h2
    simp at hlen
  · exact natDigits_head_ne_zero m hm _ _ hd rfl

theorem parseNumDigits_natDigits (neg : Bool) (m : Nat) (rest : List Char)
    (hrest : nonDigitStart rest = true) :
    parseNumDigits neg (natDigits m ++ rest)
      = some (.num (if neg then -(m : Int) else (m : Int)), rest) := by
  unfold parseNumDigits
  rw [takeDigits_append _ _ (natDigits_all_digits m) hrest]
  obtain ⟨d, ds, hd⟩ := List.exists_cons_of_ne_nil (natDigits_ne_nil m)
  rw [hd]
  show (if (d :: ds).length > 1 ∧ (d :: ds).head? = some '0' then none
        else some (Json.num (if neg then -(digitsToNat (d :: ds) : Int)
                             else (digitsToNat (d :: ds) : Int)), rest))
      = some (Json.num (if neg then -(m : Int) else (m : Int)), rest)
  rw [if_neg (hd ▸ natDigits_head_ok m)]
  have hval : (digitsToNat (d :: ds) : Int) = (m : Int) := by
    rw [← hd, digitsToNat_natDigits]
  rw [hval]

/-- A serialised integer, followed by anything that does not extend the
digit run, parses back to the same integer. -/
theorem parseNum_serInt (n : Int) (rest : List Char) (hrest : nonDigitStart rest = true) :
    parseNum (serInt n ++ rest) = some (.num n, rest) := by
  unfold serInt
  by_cases hn : n < 0
  · rw [if_pos hn, List.cons_append]
    show parseNumDigits true (natDigits (-n).toNat ++ rest) = _
    rw [parseNumDigits_natDigits true (-n).toNat rest hrest]
    have h1 : (((-n).toNat : Int)) = -n := Int.toNat_of_nonneg (by omega)
    simp [h1]
  · rw [if_neg hn]
    obtain ⟨d, ds, hd⟩ := List.exists_cons_of_ne_nil (natDigits_ne_nil n.toNat)
    have hdig : d.isDigit = true :=
      natDigits_all_digits n.toNat d (hd ▸ List.mem_cons_self d ds)
    rw [hd, List.cons_append]
    unfold parseNum
    split
    · rename_i r heq
      injection heq with h1 _
      subst h1
      exact absurd hdig (by decide)
    · rw [← List.cons_append, ← hd]
      rw [parseNumDigits_natDigits false n.toNat rest hrest]
      have h1 : ((n.toNat : Int)) = n := Int.toNat_of_nonneg (by omega)
      simp [h1]

/-! ## C9, string layer: escaped text parses back to the original. -/

theorem hexVal_hexDigitChar (d : Nat) (h : d < 16) :
    hexVal (hexDigitChar d) = some d := by
  interval_cases d <;> rfl

/-- One step of the string-body parser at a `\uXXhl` escape. -/
theorem parseStrBody_u (acc : List Char) (h3 h4 : Char) (a b : Nat) (r : List Char)
    (hh3 : hexVal h3 = some a) (hh4 : hexVal h4 = some b) :
    parseStrBody acc ('\\' :: 'u' :: '0' :: '0' :: h3 :: h4 :: r)
      = parseStrBody (Char.ofNat (16 * a + b) :: acc) r := by
  show (match hexVal '0', hexVal '0', hexVal h3, hexVal h4 with
        | some a, some b, some c, some d =>
          parseStrBody (Char.ofNat (4096 * a + 256 * b + 16 * c + d) :: acc) r
        | _, _, _, _ => none)
      = parseStrBody (Char.ofNat (16 * a + b) :: acc) r
  rw [hh3, hh4]
  show parseStrBody (Char.ofNat (4096 * 0 + 256 * 0 + 16 * a + b) :: acc) r = _
  norm_num

set_option maxHeartbeats 2000000 in
/-- The string-body parser consumes an ordinary character (printable,
unescaped) by pushing it on the accumulator. -/
theorem parseStrBody_plain (acc : List Char) (c : Char) (r : List Char)
    (h1 : c ≠ '"') (h2 : c ≠ '\\') (h6 : ¬ c.toNat < 32) :
    parseStrBody acc (c :: r) = parseStrBody (c :: acc) r := by
  rw [parseStrBody.eq_def]
  split
  all_goals simp_all

/-- The body of a serialised string literal parses back to the original
characters, with the rest of the input untouched. -/
theorem parseStrBody_ser (cs : List Char) :
    ∀ (acc rest : List Char),
      parseStrBody acc (List.flatten (cs.map escapeChar) ++ '"' :: rest)
        = some (acc.reverse ++ cs, rest) := by
  induction cs with
  | nil =>
    intro acc rest
    simp [parseStrBody]
  | cons c cs ih =>
    intro acc rest
    rw [List.map_cons, List.flatten_cons, List.append_assoc]
    have tail := fun acc => ih acc rest
    by_cases h1 : c = '"'
    · subst h1
      rw [show escapeChar '"' = ['\\', '"'] from rfl]
      show parseStrBody ('"' :: acc) (List.flatten (cs.map escapeChar) ++ '"' :: rest) = _
      rw [tail]
      simp
    · by_cases h2 : c = '\\'
      · subst h2
        rw [show escapeChar '\\' = ['\\', '\\'] from rfl]
        show parseStrBody ('\\' :: acc) (List.flatten (cs.map escapeChar) ++ '"' :: rest) = _
        rw [tail]
        simp
      · by_cases h3 : c = '\n'
        · subst h3
          rw [show escapeChar '\n' = ['\\', 'n'] from rfl]
          show parseStrBody ('\n' :: acc) (List.flatten (cs.map escapeChar) ++ '"' :: rest) = _
          rw [tail]
          simp
        · by_cases h4 : c = '\r'
          · subst h4
            rw [show escapeChar '\r' = ['\\', 'r'] from rfl]
            show parseStrBody ('\r' :: acc) (List.flatten (cs.map escapeChar) ++ '"' :: rest) = _
            rw [tail]
            simp
          · by_cases h5 : c = '\t'
            · subst h5
              rw [show escapeChar '\t' = ['\\', 't'] from rfl]
              show parseStrBody ('\t' :: acc) (List.flatten (cs.map escapeChar) ++ '"' :: rest) = _
              rw [tail]
              simp
            · by_cases h6 : c.toNat < 32
              · have hesc : escapeChar c
                    = ['\\', 'u', '0', '0', hexDigitChar (c.toNat / 16),
                       hexDigitChar (c.toNat % 16)] := by
                  simp [escapeChar, h1, h2, h3, h4, h5, h6]
                rw [hesc]
                show parseStrBody acc
                    ('\\' :: 'u' :: '0' :: '0' :: hexDigitChar (c.toNat / 16)
                      :: hexDigitChar (c.toNat % 16)
                      :: (List.flatten (cs.map escapeChar) ++ '"' :: rest)) = _
                rw [parseStrBody_u acc _ _ _ _ _
                    (hexVal_hexDigitChar (c.toNat / 16) (by omega))
                    (hexVal_hexDigitChar (c.toNat % 16) (by omega))]
                have hc : Char.ofNat (16 * (c.toNat / 16) + c.toNat % 16) = c := by
                  rw [show 16 * (c.toNat / 16) + c.toNat % 16 = c.toNat from by omega]
                  exact Char.ofNat_toNat c
                rw [hc, tail]
                simp
              · have hesc : escapeChar c = [c] := by
                  simp [escapeChar, h1, h2, h3, h4, h5, h6]
                rw [hesc]
                show parseStrBody acc
                    (c :: (List.flatten (cs.map escapeChar) ++ '"' :: rest)) = _
                rw [parseStrBody_plain acc c _ h1 h2 h6, tail]
                simp

/-! ## C9: tree size (parser fuel bound) and well-formedness. -/

mutual

/-- Parser-step count of a value: enough fuel for `parseVal`. -/
def sizeJ : Json → Nat
  | .null => 1
  | .bool _ => 1
  | .num _ => 1
  | .str _ => 1
  | .arr xs => 1 + sizeA xs
  | .obj kvs => 1 + sizeO kvs

def sizeA : List Json → Nat
  | [] => 0
  | x :: xs => 1 + sizeJ x + sizeA xs

def sizeO : List (String × Json) → Nat
  | [] => 0
  | (_, v) :: kvs => 1 + sizeJ v + sizeO kvs

end

def noDupKeys : List String → Bool
  | [] => true
  | k :: ks => !(ks.contains k) && noDupKeys ks

mutual

/-- A value is a faithful image of Go data when every object has
duplicate-free keys (a Go map binds each key once). -/
def wfJ : Json → Bool
  | .null => true
  | .bool _ => true
  | .num _ => true
  | .str _ => true
  | .arr xs => wfA xs
  | .obj kvs => noDupKeys (kvs.map Prod.fst) && wfO kvs

def wfA : List Json → Bool
  | [] => true
  | x :: xs => wfJ x && wfA xs

def wfO : List (String × Json) → Bool
  | [] => true
  | (_, v) :: kvs => wfJ v && wfO kvs

end

theorem sizeJ_pos (j : Json) : 1 ≤ sizeJ j := by
  cases j <;> simp [sizeJ]

/-- Every serialised value starts with a character that is not whitespace
and not a closing delimiter or separator. -/
theorem serJson_head (j : Json) :
    ∃ c cs, serJson j = c :: cs ∧ isWsChar c = false
      ∧ c ≠ ']' ∧ c ≠ '\x7d' ∧ c ≠ ',' := by
  have digit_facts : ∀ c : Char, c.isDigit = true →
      isWsChar c = false ∧ c ≠ ']' ∧ c ≠ '\x7d' ∧ c ≠ ',' := by
    intro c h
    have w1 : c ≠ ' ' := fun hc => by subst hc; exact absurd h (by decide)
    have w2 : c ≠ '\t' := fun hc => by subst hc; exact absurd h (by decide)
    have w3 : c ≠ '\n' := fun hc => by subst hc; exact absurd h (by decide)
    have w4 : c ≠ '\r' := fun hc => by subst hc; exact absurd h (by decide)
    refine ⟨by simp [isWsChar, w1, w2, w3, w4], ?_, ?_, ?_⟩
    · exact fun hc => by subst hc; exact absurd h (by decide)
    · exact fun hc => by subst hc; exact absurd h (by decide)
    · exact fun hc => by subst hc; exact absurd h (by decide)
  cases j with
  | null => exact ⟨'n', _, rfl, rfl, by decide, by decide, by decide⟩
  | bool b =>
    cases b
    · exact ⟨'f', _, rfl, rfl, by decide, by decide, by decide⟩
    · exact ⟨'t', _, rfl, rfl, by decide, by decide, by decide⟩
  | num n =>
    rw [show serJson (.num n) = serInt n from rfl]
    unfold serInt
    by_cases hn : n < 0
    · rw [if_pos hn]
      exact ⟨'-', _, rfl, rfl, by decide, by decide, by decide⟩
    · rw [if_neg hn]
      obtain ⟨d, ds, hd⟩ := List.exists_cons_of_ne_nil (natDigits_ne_nil n.toNat)
      have hdig : d.isDigit = true :=
        natDigits_all_digits n.toNat d (hd ▸ List.mem_cons_self d ds)
      obtain ⟨hw, he1, he2, he3⟩ := digit_facts d hdig
      exact ⟨d, ds, hd, hw, he1, he2, he3⟩
  | str s => exact ⟨'"', _, rfl, rfl, by decide, by decide, by decide⟩
  | arr xs =>
    cases xs
    · exact ⟨'[', _, rfl, rfl, by decide, by decide, by decide⟩
    · exact ⟨'[', _, rfl, rfl, by decide, by decide, by decide⟩
  | obj kvs =>
    cases kvs with
    | nil => exact ⟨'\x7b', _, rfl, rfl, by decide, by decide, by decide⟩
    | cons kv kvs =>
      obtain ⟨k, v⟩ := kv
      exact ⟨'\x7b', _, rfl, rfl, by decide, by decide, by decide⟩

theorem skipWs_not_ws (c : Char) (r : List Char) (h : isWsChar c = false) :
    skipWs (c :: r) = c :: r := by
  simp [skipWs, h]

theorem skipWs_serJson (j : Json) (rest : List Char) :
    skipWs (serJson j ++ rest) = serJson j ++ rest := by
  obtain ⟨c, cs, hc, hw, -, -, -⟩ := serJson_head j
  rw [hc, List.cons_append, skipWs_not_ws c _ hw]

/-- Go-map membership of a key, through the projected key list. -/
theorem any_key_eq_contains (kvs : List (String × Json)) (k : String) :
    kvs.any (fun p => p.1 = k) = (kvs.map Prod.fst).contains k := by
  induction kvs with
  | nil => rfl
  | cons a kvs ih =>
    obtain ⟨a1, a2⟩ := a
    by_cases ha : a1 = k
    · subst ha
      simp [List.any_cons, List.contains_cons]
    · simp [List.any_cons, List.contains_cons, ha, ih, Ne.symm ha]

set_option maxHeartbeats 4000000 in
/-- `parseVal` hands a number-headed input to the number parser. -/
theorem parseVal_num_dispatch (fuel : Nat) (c : Char) (r : List Char)
    (hd : c.isDigit = true ∨ c = '-') :
    parseVal (fuel + 1) (c :: r) = parseNum (c :: r) := by
  have hw : isWsChar c = false := by
    rcases hd with h | h
    · have w1 : c ≠ ' ' := fun hc => by subst hc; exact absurd h (by decide)
      have w2 : c ≠ '\t' := fun hc => by subst hc; exact absurd h (by decide)
      have w3 : c ≠ '\n' := fun hc => by subst hc; exact absurd h (by decide)
      have w4 : c ≠ '\r' := fun hc => by subst hc; exact absurd h (by decide)
      simp [isWsChar, w1, w2, w3, w4]
    · subst h; rfl
  rw [parseVal.eq_def]
  simp only [skipWs_not_ws c r hw]
  split
  all_goals simp_all
  intro h1 h2
  rcases hd with h3 | h3 <;> simp_all

/-- `parseVal` after `[`, when the element list is non-empty. -/
theorem parseVal_arr_cons (fuel : Nat) (r : List Char) (c : Char) (cs : List Char)
    (hr : skipWs r = c :: cs) (hc : c ≠ ']') :
    parseVal (fuel + 1) ('[' :: r)
      = match parseArrItems fuel (c :: cs) with
        | some (xs, r'') => some (Json.arr xs, r'')
        | none => none := by
  show (match skipWs r with
        | ']' :: r' => some (Json.arr [], r')
        | r' =>
          match parseArrItems fuel r' with
          | some (xs, r'') => some (Json.arr xs, r'')
          | none => none)
      = _
  rw [hr]
  split
  · rename_i heq
    simp_all
  · rename_i heq
    simp_all

/-- `parseVal` after `{`, when the member list is non-empty. -/
theorem parseVal_obj_cons (fuel : Nat) (r : List Char) (c : Char) (cs : List Char)
    (hr : skipWs r = c :: cs) (hc : c ≠ '\x7d') :
    parseVal (fuel + 1) ('\x7b' :: r)
      = match parseObjItems fuel (c :: cs) with
        | some (kvs, r'') => some (Json.obj kvs, r'')
        | none => none := by
  show (match skipWs r with
        | '\x7d' :: r' => some (Json.obj [], r')
        | r' =>
          match parseObjItems fuel r' with
          | some (kvs, r'') => some (Json.obj kvs, r'')
          | none => none)
      = _
  rw [hr]
  split
  · rename_i heq
    simp_all
  · rename_i heq
    simp_all

theorem nonDigitStart_serArrTail (xs : List Json) (rest : List Char) :
    nonDigitStart (serArrTail xs ++ ']' :: rest) = true := by
  cases xs with
  | nil => rfl
  | cons y ys => rfl

theorem nonDigitStart_serObjTail (kvs : List (String × Json)) (rest : List Char) :
    nonDigitStart (serObjTail kvs ++ '\x7d' :: rest) = true := by
  cases kvs with
  | nil => rfl
  | cons kv kvs => obtain ⟨k, v⟩ := kv; rfl

set_option maxHeartbeats 4000000 in
/-- The fuelled parser inverts the serialiser: a serialised well-formed
value (objects duplicate-free), followed by input that cannot extend a
number, parses back to exactly that value. -/
theorem roundtrip_fuel (fuel : Nat) :
    (∀ j rest, sizeJ j ≤ fuel → wfJ j = true → nonDigitStart rest = true →
        parseVal fuel (serJson j ++ rest) = some (j, rest))
    ∧ (∀ x xs rest, sizeA (x :: xs) ≤ fuel → wfA (x :: xs) = true →
        parseArrItems fuel (serJson x ++ (serArrTail xs ++ ']' :: rest))
          = some (x :: xs, rest))
    ∧ (∀ k v kvs rest, sizeO ((k, v) :: kvs) ≤ fuel →
        noDupKeys (((k, v) :: kvs).map Prod.fst) = true → wfO ((k, v) :: kvs) = true →
        parseObjItems fuel
            (serStrChars k.data ++ ':' :: (serJson v ++ (serObjTail kvs ++ '\x7d' :: rest)))
          = some ((k, v) :: kvs, rest)) := by
  induction fuel with
  | zero =>
    refine ⟨?_, ?_, ?_⟩
    · intro j rest hsz _ _
      exact absurd hsz (by have := sizeJ_pos j; omega)
    · intro x xs rest hsz _
      exact absurd hsz (by simp [sizeA])
    · intro k v kvs rest hsz _ _
      exact absurd hsz (by simp [sizeO])
  | succ fuel ih =>
    obtain ⟨ihv, iha, iho⟩ := ih
    refine ⟨?_, ?_, ?_⟩
    · intro j rest hsz hwf hnd
      cases j with
      | null => rfl
      | bool b => cases b <;> rfl
      | num n =>
        rw [show serJson (.num n) = serInt n from rfl]
        by_cases hn : n < 0
        · rw [show serInt n = '-' :: natDigits (-n).toNat from by simp [serInt, hn]]
          rw [List.cons_append, parseVal_num_dispatch fuel '-' _ (Or.inr rfl),
            ← List.cons_append,
            show ('-' :: natDigits (-n).toNat) = serInt n from by simp [serInt, hn]]
          exact parseNum_serInt n rest hnd
        · rw [show serInt n = natDigits n.toNat from by simp [serInt, hn]]
          obtain ⟨d, ds, hd⟩ := List.exists_cons_of_ne_nil (natDigits_ne_nil n.toNat)
          have hdig : d.isDigit = true :=
            natDigits_all_digits n.toNat d (hd ▸ List.mem_cons_self d ds)
          rw [hd, List.cons_append, parseVal_num_dispatch fuel d _ (Or.inl hdig),
            ← List.cons_append, ← hd,
            show natDigits n.toNat = serInt n from by simp [serInt, hn]]
          exact parseNum_serInt n rest hnd
      | str s =>
        show (match parseStrBody []
                ((List.flatten (s.data.map escapeChar) ++ ['"']) ++ rest) with
              | some (t, r') => some (Json.str ⟨t⟩, r')
              | none => none) = some (Json.str s, rest)
        rw [show (List.flatten (s.data.map escapeChar) ++ ['"']) ++ rest
              = List.flatten (s.data.map escapeChar) ++ '"' :: rest from by
            rw [List.append_assoc]; rfl]
        rw [parseStrBody_ser s.data [] rest]
        rfl
      | arr xs =>
        cases xs with
        | nil => rfl
        | cons x xs =>
          obtain ⟨c, cs2, hc, hw, hne1, hne2, hne3⟩ := serJson_head x
          have hwx : wfJ x = true ∧ wfA xs = true := by
            have h := hwf
            rw [show wfJ (.arr (x :: xs)) = (wfJ x && wfA xs) from rfl,
              Bool.and_eq_true] at h
            exact h
          show parseVal (fuel + 1)
              ('[' :: (serJson x ++ serArrTail xs ++ [']'] ++ rest)) = _
          rw [show serJson x ++ serArrTail xs ++ [']'] ++ rest
              = serJson x ++ (serArrTail xs ++ ']' :: rest) from by
            simp [List.append_assoc]]
          have hskip : skipWs (serJson x ++ (serArrTail xs ++ ']' :: rest))
              = c :: (cs2 ++ (serArrTail xs ++ ']' :: rest)) := by
            rw [skipWs_serJson, hc, List.cons_append]
          rw [parseVal_arr_cons fuel _ c _ hskip hne1,
            show c :: (cs2 ++ (serArrTail xs ++ ']' :: rest))
              = serJson x ++ (serArrTail xs ++ ']' :: rest) from by
              rw [hc, List.cons_append]]
          rw [iha x xs rest (by
              rw [show sizeJ (.arr (x :: xs)) = 1 + sizeA (x :: xs) from rfl] at hsz
              omega) (by
              rw [show wfA (x :: xs) = (wfJ x && wfA xs) from rfl, Bool.and_eq_true]
              exact hwx)]
      | obj kvs =>
        cases kvs with
        | nil => rfl
        | cons kv kvs =>
          obtain ⟨k, v⟩ := kv
          have hwx : noDupKeys (((k, v) :: kvs).map Prod.fst) = true
              ∧ wfO ((k, v) :: kvs) = true := by
            have h := hwf
            rw [show wfJ (.obj ((k, v) :: kvs))
                = (noDupKeys (((k, v) :: kvs).map Prod.fst) && wfO ((k, v) :: kvs))
              from rfl, Bool.and_eq_true] at h
            exact h
          show parseVal (fuel + 1)
              ('\x7b' :: ((serStrChars k.data
                ++ ':' :: (serJson v ++ serObjTail kvs ++ ['\x7d'])) ++ rest)) = _
          rw [show (serStrChars k.data
                ++ ':' :: (serJson v ++ serObjTail kvs ++ ['\x7d'])) ++ rest
              = serStrChars k.data
                ++ ':' :: (serJson v ++ (serObjTail kvs ++ '\x7d' :: rest)) from by
            simp [List.append_assoc]]
          have hskip : skipWs (serStrChars k.data
                ++ ':' :: (serJson v ++ (serObjTail kvs ++ '\x7d' :: rest)))
              = '"' :: ((List.flatten (k.data.map escapeChar) ++ ['"'])
                  ++ ':' :: (serJson v ++ (serObjTail kvs ++ '\x7d' :: rest))) := by
            rw [show serStrChars k.data
                  = '"' :: (List.flatten (k.data.map escapeChar) ++ ['"']) from rfl,
              List.cons_append, skipWs_not_ws '"' _ (by decide)]
          rw [parseVal_obj_cons fuel _ '"' _ hskip (by decide),
            show '"' :: ((List.flatten (k.data.map escapeChar) ++ ['"'])
                  ++ ':' :: (serJson v ++ (serObjTail kvs ++ '\x7d' :: rest)))
              = serStrChars k.data
                  ++ ':' :: (serJson v ++ (serObjTail kvs ++ '\x7d' :: rest)) from by
              rw [show serStrChars k.data
                    = '"' :: (List.flatten (k.data.map escapeChar) ++ ['"']) from rfl,
                List.cons_append]]
          rw [iho k v kvs rest (by
              rw [show sizeJ (.obj ((k, v) :: kvs)) = 1 + sizeO ((k, v) :: kvs) from rfl]
                at hsz
              omega) hwx.1 hwx.2]
    · intro x xs rest hsz hwf
      have hwx : wfJ x = true ∧ wfA xs = true := by
        have h := hwf
        rw [show wfA (x :: xs) = (wfJ x && wfA xs) from rfl, Bool.and_eq_true] at h
        exact h
      have hszx : sizeJ x ≤ fuel := by
        rw [show sizeA (x :: xs) = 1 + sizeJ x + sizeA xs from rfl] at hsz
        omega
      show (match parseVal fuel (serJson x ++ (serArrTail xs ++ ']' :: rest)) with
            | none => none
            | some (j, r) =>
              match skipWs r with
              | ',' :: r' =>
                match parseArrItems fuel r' with
                | some (js, r'') => some (j :: js, r'')
                | none => none
              | ']' :: r' => some ([j], r')
              | _ => none) = some (x :: xs, rest)
      rw [ihv x (serArrTail xs ++ ']' :: rest) hszx hwx.1
        (nonDigitStart_serArrTail xs rest)]
      cases xs with
      | nil =>
        show (match skipWs (']' :: rest) with
              | ',' :: r' =>
                match parseArrItems fuel r' with
                | some (js, r'') => some (x :: js, r'')
                | none => none
              | ']' :: r' => some ([x], r')
              | _ => none) = some ([x], rest)
        rw [skipWs_not_ws ']' rest (by decide)]
        rfl
      | cons y ys =>
        show (match skipWs (',' :: (serJson y ++ serArrTail ys ++ ']' :: rest)) with
              | ',' :: r' =>
                match parseArrItems fuel r' with
                | some (js, r'') => some (x :: js, r'')
                | none => none
              | ']' :: r' => some ([x], r')
              | _ => none) = some (x :: y :: ys, rest)
        rw [skipWs_not_ws ',' _ (by decide),
          show serJson y ++ serArrTail ys ++ ']' :: rest
            = serJson y ++ (serArrTail ys ++ ']' :: rest) from by
            simp [List.append_assoc]]
        show (match parseArrItems fuel (serJson y ++ (serArrTail ys ++ ']' :: rest)) with
              | some (js, r'') => some (x :: js, r'')
              | none => none) = some (x :: y :: ys, rest)
        rw [iha y ys rest (by
            rw [show sizeA (x :: y :: ys) = 1 + sizeJ x + sizeA (y :: ys) from rfl] at hsz
            omega) hwx.2]
    · intro k v kvs rest hsz hnd hwf
      have hwx : wfJ v = true ∧ wfO kvs = true := by
        have h := hwf
        rw [show wfO ((k, v) :: kvs) = (wfJ v && wfO kvs) from rfl, Bool.and_eq_true] at h
        exact h
      have hszv : sizeJ v ≤ fuel := by
        rw [show sizeO ((k, v) :: kvs) = 1 + sizeJ v + sizeO kvs from rfl] at hsz
        omega
      show (match skipWs (serStrChars k.data
              ++ ':' :: (serJson v ++ (serObjTail kvs ++ '\x7d' :: rest))) with
            | '"' :: r =>
              match parseStrBody [] r with
              | none => none
              | some (kc, r1) =>
                match skipWs r1 with
                | ':' :: r2 =>
                  match parseVal fuel r2 with
                  | none => none
                  | some (v, r3) =>
                    match skipWs r3 with
                    | ',' :: r4 =>
                      match parseObjItems fuel r4 with
                      | some (kvs, r5) => some (objInsert ⟨kc⟩ v kvs, r5)
                      | none => none
                    | '\x7d' :: r4 => some ([(⟨kc⟩, v)], r4)
                    | _ => none
                | _ => none
            | _ => none) = some ((k, v) :: kvs, rest)
      rw [show serStrChars k.data
            = '"' :: (List.flatten (k.data.map escapeChar) ++ ['"']) from rfl,
        List.cons_append, skipWs_not_ws '"' _ (by decide)]
      show (match parseStrBody []
              ((List.flatten (k.data.map escapeChar) ++ ['"'])
                ++ ':' :: (serJson v ++ (serObjTail kvs ++ '\x7d' :: rest))) with
            | none => none
            | some (kc, r1) =>
              match skipWs r1 with
              | ':' :: r2 =>
                match parseVal fuel r2 with
                | none => none
                | some (v, r3) =>
                  match skipWs r3 with
                  | ',' :: r4 =>
                    match parseObjItems fuel r4 with
                    | some (kvs, r5) => some (objInsert ⟨kc⟩ v kvs, r5)
                    | none => none
                  | '\x7d' :: r4 => some ([(⟨kc⟩, v)], r4)
                  | _ => none
              | _ => none) = some ((k, v) :: kvs, rest)
      rw [show (List.flatten (k.data.map escapeChar) ++ ['"'])
              ++ ':' :: (serJson v ++ (serObjTail kvs ++ '\x7d' :: rest))
            = List.flatten (k.data.map escapeChar)
              ++ '"' :: ':' :: (serJson v ++ (serObjTail kvs ++ '\x7d' :: rest)) from by
          rw [List.append_assoc]; rfl]
      rw [parseStrBody_ser k.data [] _]
      show (match skipWs (':' :: (serJson v ++ (serObjTail kvs ++ '\x7d' :: rest))) with
            | ':' :: r2 =>
              match parseVal fuel r2 with
              | none => none
              | some (v, r3) =>
                match skipWs r3 with
                | ',' :: r4 =>
                  match parseObjItems fuel r4 with
                  | some (kvs, r5) => some (objInsert ⟨k.data⟩ v kvs, r5)
                  | none => none
                | '\x7d' :: r4 => some ([(⟨k.data⟩, v)], r4)
                | _ => none
            | _ => none) = some ((k, v) :: kvs, rest)
      rw [skipWs_not_ws ':' _ (by decide)]
      show (match parseVal fuel (serJson v ++ (serObjTail kvs ++ '\x7d' :: rest)) with
            | none => none
            | some (v, r3) =>
              match skipWs r3 with
              | ',' :: r4 =>
                match parseObjItems fuel r4 with
                | some (kvs, r5) => some (objInsert ⟨k.data⟩ v kvs, r5)
                | none => none
              | '\x7d' :: r4 => some ([(⟨k.data⟩, v)], r4)
              | _ => none) = some ((k, v) :: kvs, rest)
      rw [ihv v (serObjTail kvs ++ '\x7d' :: rest) hszv hwx.1
        (nonDigitStart_serObjTail kvs rest)]
      cases kvs with
      | nil =>
        show (match skipWs ('\x7d' :: rest) with
              | ',' :: r4 =>
                match parseObjItems fuel r4 with
                | some (kvs, r5) => some (objInsert ⟨k.data⟩ v kvs, r5)
                | none => none
              | '\x7d' :: r4 => some ([(⟨k.data⟩, v)], r4)
              | _ => none) = some ([(k, v)], rest)
        rw [skipWs_not_ws '\x7d' rest (by decide)]
        rfl
      | cons kv2 kvs2 =>
        obtain ⟨k2, v2⟩ := kv2
        have hnd2 : (((k2, v2) :: kvs2).map Prod.fst).contains k = false
            ∧ noDupKeys (((k2, v2) :: kvs2).map Prod.fst) = true := by
          have h := hnd
          rw [show (((k, v) :: (k2, v2) :: kvs2).map Prod.fst)
              = k :: (((k2, v2) :: kvs2).map Prod.fst) from rfl] at h
          rw [show noDupKeys (k :: (((k2, v2) :: kvs2).map Prod.fst))
              = (!((((k2, v2) :: kvs2).map Prod.fst).contains k)
                  && noDupKeys (((k2, v2) :: kvs2).map Prod.fst)) from rfl,
            Bool.and_eq_true, Bool.not_eq_true'] at h
          exact h
        show (match skipWs (',' :: ((serStrChars k2.data
                ++ ':' :: (serJson v2 ++ serObjTail kvs2)) ++ '\x7d' :: rest)) with
              | ',' :: r4 =>
                match parseObjItems fuel r4 with
                | some (kvs, r5) => some (objInsert ⟨k.data⟩ v kvs, r5)
                | none => none
              | '\x7d' :: r4 => some ([(⟨k.data⟩, v)], r4)
              | _ => none) = some ((k, v) :: (k2, v2) :: kvs2, rest)
        rw [skipWs_not_ws ',' _ (by decide),
          show (serStrChars k2.data ++ ':' :: (serJson v2 ++ serObjTail kvs2)) ++ '\x7d' :: rest
            = serStrChars k2.data
              ++ ':' :: (serJson v2 ++ (serObjTail kvs2 ++ '\x7d' :: rest)) from by
            simp [List.append_assoc]]
        show (match parseObjItems fuel (serStrChars k2.data
                ++ ':' :: (serJson v2 ++ (serObjTail kvs2 ++ '\x7d' :: rest))) with
              | some (kvs, r5) => some (objInsert ⟨k.data⟩ v kvs, r5)
              | none => none) = some ((k, v) :: (k2, v2) :: kvs2, rest)
        rw [iho k2 v2 kvs2 rest (by
            rw [show sizeO ((k, v) :: (k2, v2) :: kvs2)
                = 1 + sizeJ v + sizeO ((k2, v2) :: kvs2) from rfl] at hsz
            omega) hnd2.2 hwx.2]
        show some (objInsert k v ((k2, v2) :: kvs2), rest)
            = some ((k, v) :: (k2, v2) :: kvs2, rest)
        rw [show objInsert k v ((k2, v2) :: kvs2)
            = if ((k2, v2) :: kvs2).any (fun p => p.1 = k) then ((k2, v2) :: kvs2)
              else (k, v) :: (k2, v2) :: kvs2 from rfl]
        rw [any_key_eq_contains, hnd2.1]
        rfl

/-- The parser-step count never exceeds the serialised length, so the
fuel `parseJsonChars` allots is always sufficient for a serialised
value. -/
theorem size_le_serLen :
    (∀ j : Json, sizeJ j ≤ (serJson j).length)
    ∧ (∀ xs : List Json, sizeA xs ≤ (serArrTail xs).length)
    ∧ (∀ kvs : List (String × Json), sizeO kvs ≤ (serObjTail kvs).length) := by
  have main : ∀ n : Nat,
      (∀ j, sizeJ j ≤ n → sizeJ j ≤ (serJson j).length)
      ∧ (∀ xs, sizeA xs ≤ n → sizeA xs ≤ (serArrTail xs).length)
      ∧ (∀ kvs, sizeO kvs ≤ n → sizeO kvs ≤ (serObjTail kvs).length) := by
    intro n
    induction n with
    | zero =>
      refine ⟨?_, ?_, ?_⟩
      · intro j h
        exact absurd h (by have := sizeJ_pos j; omega)
      · intro xs h
        cases xs with
        | nil => simp [sizeA]
        | cons x xs => exact absurd h (by simp [sizeA])
      · intro kvs h
        cases kvs with
        | nil => simp [sizeO]
        | cons kv kvs =>
          obtain ⟨k, v⟩ := kv
          exact absurd h (by simp [sizeO])
    | succ n ih =>
      obtain ⟨ihj, iha2, iho2⟩ := ih
      refine ⟨?_, ?_, ?_⟩
      · intro j h
        cases j with
        | null => simp [sizeJ, serJson]
        | bool b => cases b <;> simp [sizeJ, serJson]
        | num n' =>
          have : (serInt n').length ≥ 1 := by
            unfold serInt
            by_cases hn : n' < 0
            · simp [hn]
            · rw [if_neg hn]
              obtain ⟨d, ds, hd⟩ := List.exists_cons_of_ne_nil (natDigits_ne_nil n'.toNat)
              simp [hd]
          rw [show sizeJ (.num n') = 1 from rfl,
            show serJson (.num n') = serInt n' from rfl]
          omega
        | str s =>
          rw [show sizeJ (.str s) = 1 from rfl,
            show serJson (.str s) = serStrChars s.data from rfl,
            show serStrChars s.data
              = '"' :: (List.flatten (s.data.map escapeChar) ++ ['"']) from rfl]
          simp
        | arr xs =>
          cases xs with
          | nil => simp [sizeJ, sizeA, serJson]
          | cons x xs =>
            rw [show sizeJ (.arr (x :: xs)) = 1 + (1 + sizeJ x + sizeA xs) from rfl,
              show serJson (.arr (x :: xs))
                = '[' :: (serJson x ++ serArrTail xs ++ [']']) from rfl]
            have h1 : sizeJ x ≤ (serJson x).length := by
              apply ihj
              rw [show sizeJ (.arr (x :: xs)) = 1 + (1 + sizeJ x + sizeA xs) from rfl] at h
              omega
            have h2 : sizeA xs ≤ (serArrTail xs).length := by
              apply iha2
              rw [show sizeJ (.arr (x :: xs)) = 1 + (1 + sizeJ x + sizeA xs) from rfl] at h
              omega
            simp [List.length_append]
            omega
        | obj kvs =>
          cases kvs with
          | nil => simp [sizeJ, sizeO, serJson]
          | cons kv kvs =>
            obtain ⟨k, v⟩ := kv
            rw [show sizeJ (.obj ((k, v) :: kvs)) = 1 + (1 + sizeJ v + sizeO kvs) from rfl,
              show serJson (.obj ((k, v) :: kvs))
                = '\x7b' :: (serStrChars k.data
                    ++ ':' :: (serJson v ++ serObjTail kvs ++ ['\x7d'])) from rfl]
            have h1 : sizeJ v ≤ (serJson v).length := by
              apply ihj
              rw [show sizeJ (.obj ((k, v) :: kvs))
                  = 1 + (1 + sizeJ v + sizeO kvs) from rfl] at h
              omega
            have h2 : sizeO kvs ≤ (serObjTail kvs).length := by
              apply iho2
              rw [show sizeJ (.obj ((k, v) :: kvs))
                  = 1 + (1 + sizeJ v + sizeO kvs) from rfl] at h
              omega
            simp [List.length_append]
            omega
      · intro xs h
        cases xs with
        | nil => simp [sizeA]
        | cons x xs =>
          rw [show sizeA (x :: xs) = 1 + sizeJ x + sizeA xs from rfl,
            show serArrTail (x :: xs) = ',' :: (serJson x ++ serArrTail xs) from rfl]
          have h1 : sizeJ x ≤ (serJson x).length := by
            apply ihj
            rw [show sizeA (x :: xs) = 1 + sizeJ x + sizeA xs from rfl] at h
            omega
          have h2 : sizeA xs ≤ (serArrTail xs).length := by
            apply iha2
            rw [show sizeA (x :: xs) = 1 + sizeJ x + sizeA xs from rfl] at h
            omega
          simp [List.length_append]
          omega
      · intro kvs h
        cases kvs with
        | nil => simp [sizeO]
        | cons kv kvs =>
          obtain ⟨k, v⟩ := kv
          rw [show sizeO ((k, v) :: kvs) = 1 + sizeJ v + sizeO kvs from rfl,
            show serObjTail ((k, v) :: kvs)
              = ',' :: (serStrChars k.data ++ ':' :: (serJson v ++ serObjTail kvs)) from rfl]
          have h1 : sizeJ v ≤ (serJson v).length := by
            apply ihj
            rw [show sizeO ((k, v) :: kvs) = 1 + sizeJ v + sizeO kvs from rfl] at h
            omega
          have h2 : sizeO kvs ≤ (serObjTail kvs).length := by
            apply iho2
            rw [show sizeO ((k, v) :: kvs) = 1 + sizeJ v + sizeO kvs from rfl] at h
            omega
          simp [List.length_append]
          omega
  exact ⟨fun j => (main (sizeJ j)).1 j (le_refl _),
         fun xs => (main (sizeA xs)).2.1 xs (le_refl _),
         fun kvs => (main (sizeO kvs)).2.2 kvs (le_refl _)⟩

/-- A serialised well-formed value is one complete JSON document that
parses back to itself. -/
theorem parseJsonChars_serJson (j : Json) (hwf : wfJ j = true) :
    parseJsonChars (serJson j) = some j := by
  unfold parseJsonChars
  have hfuel : sizeJ j ≤ 2 * (serJson j).length + 2 := by
    have := size_le_serLen.1 j
    omega
  have h := (roundtrip_fuel (2 * (serJson j).length + 2)).1 j [] hfuel hwf rfl
  rw [List.append_nil] at h
  rw [h]
  rfl

/-- C9: for every protocol message whose data payload is a faithful Go-map
image (duplicate-free object keys), serialising it with `Message.ToJSON`
and re-parsing the line with `Message.FromJSON` succeeds and yields a
message whose event type and data payload equal the original's (timestamp
formatting precision excluded). -/
theorem C9_roundtrip (m : Message) (hwf : wfJ (.obj m.data) = true) :
    ∃ m' : Message, messageFromJSON (messageToJSON m) = some m'
      ∧ m'.eventType = m.eventType ∧ m'.data = m.data := by
  have hwftop : wfJ (.obj [("data", .obj m.data), ("event_type", .str m.eventType),
      ("timestamp", .str (formatTimestamp m.timestamp))]) = true := by
    rw [show wfJ (.obj [("data", .obj m.data), ("event_type", .str m.eventType),
          ("timestamp", .str (formatTimestamp m.timestamp))])
        = (noDupKeys ["data", "event_type", "timestamp"]
            && (wfJ (.obj m.data) && (true && (true && true)))) from rfl]
    rw [hwf]
    rfl
  have hparse : parseJson (messageToJSON m)
      = some (.obj [("data", .obj m.data), ("event_type", .str m.eventType),
                    ("timestamp", .str (formatTimestamp m.timestamp))]) :=
    parseJsonChars_serJson _ hwftop
  refine ⟨{ eventType := m.eventType,
            timestamp := if rfc3339Valid (formatTimestamp m.timestamp)
              then some (formatTimestamp m.timestamp) else none,
            data := m.data,
            rawJSON := messageToJSON m }, ?_, rfl, rfl⟩
  unfold messageFromJSON
  rw [hparse]
  rfl

/-- Witness: the round trip recovers a concrete content message. -/
theorem C9_witness :
    wfJ (.obj [("content", Json.str "hi")]) = true
    ∧ ∃ m' : Message, messageFromJSON (messageToJSON
        { eventType := "content", timestamp := some "2024-01-02T03:04:05Z",
          data := [("content", Json.str "hi")], rawJSON := "" }) = some m'
      ∧ m'.eventType = "content" ∧ m'.data = [("content", Json.str "hi")] :=
  ⟨by decide, C9_roundtrip
    { eventType := "content", timestamp := some "2024-01-02T03:04:05Z",
      data := [("content", Json.str "hi")], rawJSON := "" } (by decide)⟩

end Ragclient
